import Mathlib

/-!
Verification of the topology-aware placement policy core
(`buildPoolsByTopology`, `checkHWTopology`, `assignNUMANodes`,
`allocatePool`, `applyGrant`, `releasePool`, `updateSharedAllocations`,
`compareScores`) and of the balloons metrics projection
(`GetMetrics` / `Collect`).

The Go source is shallowly embedded: Go `int` becomes `Int`, Go
`float64` scores become `ℚ` (exact arithmetic; the comparator only
ever multiplies, adds and compares these values), CPU and NUMA-node
sets become `Finset Int`, Go maps become association lists or total
functions with the map's zero value as default, and Go map iteration
order — unspecified in Go — is made an explicit parameter wherever
the source iterates over a map.  Functions that can fail return
`Except Unit` or `Option`.
-/

set_option linter.unusedVariables false

namespace NriPolicy

/-- CPU kind of a request or grant (`cpuNormal`, `cpuReserved`, `cpuPreserve`). -/
inductive CPUType where
  | cpuNormal
  | cpuReserved
  | cpuPreserve
deriving DecidableEq, Repr

export CPUType (cpuNormal cpuReserved cpuPreserve)

/-- CPU priority preference of a request (`lowPrio`, `normalPrio`, `highPrio`). -/
inductive CPUPrio where
  | lowPrio
  | normalPrio
  | highPrio
deriving DecidableEq, Repr

export CPUPrio (lowPrio normalPrio highPrio)

/-- Modelled from the spec: memory type masks live outside `src/`.
`memoryUnspec` is the zero mask. -/
def memoryUnspec : Nat := 0

/-- Modelled from the spec: the `preserve` marker value of the memory-type
enumeration (distinct from every real type mask, bit 3). -/
def memoryPreserve : Nat := 8

/-- Modelled from the spec: `TypeMask()` keeps the DRAM/PMEM/HBM bits
(bits 0-2) of a memory-type value. -/
def memTypeMask (t : Nat) : Nat := t % 8

/-- A committed or pending memory offer; only its node mask is consulted
by the comparator (`o.NodeMask()`).  The mask is a bit set of NUMA ids. -/
structure MemOffer where
  nodeMask : Nat
deriving DecidableEq, Repr

/-- `NodeMask.Size()`: number of bits set in the mask. -/
def maskSize : Nat → Nat
  | 0 => 0
  | n + 1 => (n + 1) % 2 + maskSize ((n + 1) / 2)

/-- The pool-node data consulted by `compareScores` and `affinityScore`:
`NodeID()`, `Name()`, `RootDistance()`, the chain of ancestors walked by
`affinityScore` (nearest parent first), the subtree in breadth-first
order as pairs (node id, root distance) starting with the node itself,
and `HasMemoryType`. -/
structure PoolNode where
  nodeID : Int
  name : String
  rootDistance : Int
  ancestors : List Int
  subtree : List (Int × Int)
  hasMemoryType : Nat → Bool

instance : Inhabited PoolNode := ⟨⟨0, "", 0, [], [], fun _ => false⟩⟩

/-- The score a pool got for a request: isolated/reserved/shared
capacities, per-priority capacities, topology-hint scores (the values of
the Go `map[string]float64`; both combined products are iteration-order
independent so a list suffices), colocated-container count, and the
pending memory offer. -/
structure Score where
  isolated : Int
  reserved : Int
  shared : Int
  lowCap : Int
  normalCap : Int
  highCap : Int
  hintScores : List ℚ
  colocated : Int
  offer : Option MemOffer

instance : Inhabited Score := ⟨⟨0, 0, 0, 0, 0, 0, [], 0, none⟩⟩

/-- `Score.PrioCapacity(prio)`. -/
def Score.prioCapacity (s : Score) : CPUPrio → Int
  | lowPrio => s.lowCap
  | normalPrio => s.normalCap
  | highPrio => s.highCap

/-- A request as seen by the comparator: CPU kind, CPU priority, raw
memory type (`MemoryType()`), the `Isolate()` flag and `FullCPUs()`. -/
structure Request where
  cpuType : CPUType
  cpuPrio : CPUPrio
  memoryType : Nat
  isolate : Bool
  fullCPUs : Int

/-- Policy context consulted by the comparator: `p.memZoneType` maps an
offer's node mask to the memory-type mask of that zone. -/
structure CmpCtx where
  memZoneType : Nat → Nat

/-- `combineHintScores`: combined product of all hint scores, and the
product filtered to non-zero scores (0 when none), built exactly as the
source's loop does. -/
def combineHintScores (scores : List ℚ) : ℚ × ℚ :=
  if scores.length = 0 then (0, 0)
  else scores.foldl (fun acc score =>
    (acc.1 * score,
     if score ≠ 0 then (if acc.2 = 0 then score else acc.2 * score) else acc.2)) (1, 0)

/-- Inner loop of `affinityScore`: walk from the node towards the root,
`q` starting at Q = 3/4 and shrinking by Q per link. -/
def ancestorScore (affinities : Int → Int) : List Int → ℚ → ℚ
  | [], _ => 0
  | n :: rest, q => q * (affinities n : ℚ) + ancestorScore affinities rest (q * (3/4))

/-- Inner loop of `affinityScore`: breadth-first walk of the subtree,
diluting by Q to the power of the depth difference. -/
def subtreeScore (affinities : Int → Int) (baseDepth : Int) : List (Int × Int) → ℚ
  | [] => 0
  | (n, d) :: rest =>
      (3/4 : ℚ) ^ (d - baseDepth).toNat * (affinities n : ℚ) +
        subtreeScore affinities baseDepth rest

/-- `affinityScore(affinities, node)`: the combined affinity of the node,
its ancestors and its subtree, diluted by Q = 0.75 per tree link. -/
def affinityScore (affinities : Int → Int) (node : PoolNode) : ℚ :=
  ancestorScore affinities node.ancestors (3/4) +
    subtreeScore affinities node.rootDistance node.subtree

/-- One rung of the comparator ladder: `some b` models an early
`return b`, `none` models falling through to the next rung. -/
def stepOrElse (x : Option Bool) (y : Option Bool) : Option Bool :=
  match x with
  | some b => some b
  | none => y

/-- A rung that returns `true` on `p`, `false` on `q`, else falls through. -/
def strictStep (p q : Prop) [Decidable p] [Decidable q] : Option Bool :=
  if p then some true else if q then some false else none

/-- Sufficiency veto (`compareScores`, first switch): a node with
insufficient isolated/shared (normal) or reserved (reserved) capacity
loses. -/
def sufficiencyStep (cpuType : CPUType) (isolated1 isolated2 reserved1 reserved2
    shared1 shared2 : Int) : Option Bool :=
  if cpuType = cpuNormal ∧ ((isolated2 < 0 ∧ isolated1 ≥ 0) ∨ (shared2 ≤ 0 ∧ shared1 > 0)) then
    some true
  else if cpuType = cpuNormal ∧ ((isolated1 < 0 ∧ isolated2 ≥ 0) ∨ (shared1 ≤ 0 ∧ shared2 > 0)) then
    some false
  else if cpuType = cpuReserved ∧ reserved2 < 0 ∧ reserved1 ≥ 0 then some true
  else if cpuType = cpuReserved ∧ reserved1 < 0 ∧ reserved2 ≥ 0 then some false
  else none

/-- Affinity rung: strictly higher affinity score wins. -/
def affinityStep (a1 a2 : ℚ) : Option Bool :=
  strictStep (a1 > a2) (a2 > a1)

/-- Memory-offer rung: non-nil beats nil; then matching zone type beats
mismatching; then the smaller (tighter) node mask wins. -/
def memOfferStep (ctx : CmpCtx) (req : Request) (o1 o2 : Option MemOffer) : Option Bool :=
  match o1, o2 with
  | some _, none => some true
  | none, some _ => some false
  | none, none => none
  | some v1, some v2 =>
    let m1 := v1.nodeMask
    let m2 := v2.nodeMask
    let t1 := ctx.memZoneType m1
    let t2 := ctx.memZoneType m2
    let reqMask := memTypeMask req.memoryType
    stepOrElse (strictStep (t1 = reqMask ∧ t2 ≠ reqMask) (t1 ≠ reqMask ∧ t2 = reqMask))
      (strictStep (maskSize m1 < maskSize m2) (maskSize m2 < maskSize m1))

/-- Memory-type rung: when the request names a type (neither unspec nor
preserve), only the node advertising it wins. -/
def memTypeStep (req : Request) (node1 node2 : PoolNode) : Option Bool :=
  if req.memoryType ≠ memoryUnspec ∧ req.memoryType ≠ memoryPreserve then
    strictStep (node1.hasMemoryType req.memoryType = true ∧ ¬ node2.hasMemoryType req.memoryType = true)
      (¬ node1.hasMemoryType req.memoryType = true ∧ node2.hasMemoryType req.memoryType = true)
  else none

/-- Topology-hint rung of `compareScores`.  Entered only when `node1` has
hint scores; compares combined then zero-filtered products; on a full tie
with a non-zero score the deeper node wins, then the smaller id — with an
early `return id1 < id2` that never falls through. -/
def hintStep (score1 score2 : Score) (depth1 depth2 id1 id2 : Int) : Option Bool :=
  if score1.hintScores.length > 0 then
    let c1 := combineHintScores score1.hintScores
    let c2 := combineHintScores score2.hintScores
    stepOrElse (strictStep (c1.1 > c2.1) (c2.1 > c1.1))
      (stepOrElse
        (if c1.1 = 0 then strictStep (c1.2 > c2.2) (c2.2 > c1.2) else none)
        (if c1.1 = c2.1 ∧ c1.2 = c2.2 ∧ (c1.1 ≠ 0 ∨ c1.2 ≠ 0) then
          stepOrElse (strictStep (depth1 > depth2) (depth1 < depth2))
            (some (decide (id1 < id2)))
        else none))
  else none

/-- Low/high CPU-priority rung: the only node with non-negative capacity
for the requested priority wins; equal capacities (or mixed signs other
than the two winning cases) fall through. -/
def prioStep (req : Request) (score1 score2 : Score) : Option Bool :=
  match req.cpuPrio with
  | lowPrio =>
      if score1.prioCapacity lowPrio = score2.prioCapacity lowPrio then none
      else strictStep (score1.prioCapacity lowPrio ≥ 0 ∧ score2.prioCapacity lowPrio < 0)
        (score1.prioCapacity lowPrio < 0 ∧ score2.prioCapacity lowPrio ≥ 0)
  | highPrio =>
      if score1.prioCapacity highPrio = score2.prioCapacity highPrio then none
      else strictStep (score1.prioCapacity highPrio ≥ 0 ∧ score2.prioCapacity highPrio < 0)
        (score1.prioCapacity highPrio < 0 ∧ score2.prioCapacity highPrio ≥ 0)
  | normalPrio => none

/-- Depth rung: the lower (deeper) node wins. -/
def depthStep (depth1 depth2 : Int) : Option Bool :=
  strictStep (depth1 > depth2) (depth1 < depth2)

/-- Reserved remainder: more unallocated reserved capacity per colocated
container wins (Go integer division truncates towards zero). -/
def reservedStep (cpuType : CPUType) (reserved1 reserved2 colo1 colo2 : Int) : Option Bool :=
  if cpuType = cpuReserved then
    strictStep (Int.tdiv reserved1 (colo1 + 1) > Int.tdiv reserved2 (colo2 + 1))
      (Int.tdiv reserved2 (colo2 + 1) > Int.tdiv reserved1 (colo1 + 1))
  else none

/-- Isolated remainder (normal + isolate): more isolated capacity wins,
a tie is broken by the smaller id and never falls through. -/
def isolateStep (req : Request) (isolated1 isolated2 id1 id2 : Int) : Option Bool :=
  if req.cpuType = cpuNormal ∧ req.isolate = true ∧ (isolated1 > 0 ∨ isolated2 > 0) then
    stepOrElse (strictStep (isolated1 > isolated2) (isolated2 > isolated1))
      (some (decide (id1 < id2)))
  else none

/-- Normal-priority remainder: the only node with non-negative
normal-priority capacity wins. -/
def normalPrioStep (req : Request) (score1 score2 : Score) : Option Bool :=
  if req.cpuType = cpuNormal ∧ req.cpuPrio = normalPrio then
    if score1.prioCapacity normalPrio = score2.prioCapacity normalPrio then none
    else strictStep (score1.prioCapacity normalPrio ≥ 0 ∧ score2.prioCapacity normalPrio < 0)
      (score1.prioCapacity normalPrio < 0 ∧ score2.prioCapacity normalPrio ≥ 0)
  else none

/-- Whole-CPU remainder: more slicable shared capacity wins, tie broken
by smaller id, never falling through. -/
def fullCPUStep (req : Request) (shared1 shared2 id1 id2 : Int) : Option Bool :=
  if req.cpuType = cpuNormal ∧ req.fullCPUs > 0 ∧ (shared1 > 0 ∨ shared2 > 0) then
    stepOrElse (strictStep (shared1 > shared2) (shared2 > shared1))
      (some (decide (id1 < id2)))
  else none

/-- Colocation remainder: fewer colocated containers win. -/
def colocatedStep (req : Request) (colo1 colo2 : Int) : Option Bool :=
  if req.cpuType = cpuNormal then strictStep (colo1 < colo2) (colo2 < colo1) else none

/-- Shared-capacity remainder: more shared capacity wins. -/
def sharedStep (req : Request) (shared1 shared2 : Int) : Option Bool :=
  if req.cpuType = cpuNormal then strictStep (shared1 > shared2) (shared2 > shared1) else none

/-- `compareScores` with both pool nodes already fetched:
the full tie-break ladder, ending in "lower id wins". -/
def compareNodes (ctx : CmpCtx) (req : Request) (node1 node2 : PoolNode)
    (scores : Int → Score) (affinity : Int → Int) : Bool :=
  let depth1 := node1.rootDistance
  let depth2 := node2.rootDistance
  let id1 := node1.nodeID
  let id2 := node2.nodeID
  let score1 := scores id1
  let score2 := scores id2
  let a1 := affinityScore affinity node1
  let a2 := affinityScore affinity node2
  (stepOrElse (sufficiencyStep req.cpuType score1.isolated score2.isolated
      score1.reserved score2.reserved score1.shared score2.shared)
    (stepOrElse (affinityStep a1 a2)
      (stepOrElse (memOfferStep ctx req score1.offer score2.offer)
        (stepOrElse (memTypeStep req node1 node2)
          (stepOrElse (hintStep score1 score2 depth1 depth2 id1 id2)
            (stepOrElse (prioStep req score1 score2)
              (stepOrElse (depthStep depth1 depth2)
                (stepOrElse (reservedStep req.cpuType score1.reserved score2.reserved
                    score1.colocated score2.colocated)
                  (stepOrElse (isolateStep req score1.isolated score2.isolated id1 id2)
                    (stepOrElse (normalPrioStep req score1 score2)
                      (stepOrElse (fullCPUStep req score1.shared score2.shared id1 id2)
                        (stepOrElse (colocatedStep req score1.colocated score2.colocated)
                          (sharedStep req score1.shared score2.shared))))))))))))).getD
    (decide (id1 < id2))

/-- `compareScores(request, pools, scores, affinity, i, j)`: compare the
pools at indices `i` and `j` of the candidate slice. -/
def compareScores (ctx : CmpCtx) (req : Request) (pools : List PoolNode)
    (scores : Int → Score) (affinity : Int → Int) (i j : Nat) : Bool :=
  compareNodes ctx req (pools.getD i default) (pools.getD j default) scores affinity

/-! ### Antisymmetry machinery for the comparator -/

/-- Two ladder rungs mirror each other: they fall through together, and
an early `return true` on one side forces an early `return false` on the
swapped side. -/
def Mirror (x y : Option Bool) : Prop :=
  (x = none ↔ y = none) ∧ (x = some true → y = some false) ∧ (y = some true → x = some false)

theorem mirror_none : Mirror none none := by
  refine ⟨Iff.rfl, ?_, ?_⟩ <;> intro h <;> cases h

theorem mirror_strictStep (p q : Prop) [Decidable p] [Decidable q]
    (h : ¬ (p ∧ q)) : Mirror (strictStep p q) (strictStep q p) := by
  unfold strictStep
  refine ⟨?_, ?_, ?_⟩ <;> split_ifs <;> simp_all

theorem mirror_stepOrElse {x x' y y' : Option Bool} (hx : Mirror x x')
    (hy : x = none → x' = none → Mirror y y') :
    Mirror (stepOrElse x y) (stepOrElse x' y') := by
  obtain ⟨hnone, hxt, hxf⟩ := hx
  cases hx1 : x with
  | none =>
      have hx2 : x' = none := hnone.mp hx1
      rw [hx2]
      simpa [stepOrElse] using hy hx1 hx2
  | some b =>
      have hx2 : x' ≠ none := fun h => by
        rw [hnone.mpr h] at hx1; cases hx1
      obtain ⟨b', hb'⟩ := Option.ne_none_iff_exists'.mp hx2
      rw [hx1] at hxt hxf
      rw [hb'] at hxt hxf
      rw [hb']
      refine ⟨by simp [stepOrElse], ?_, ?_⟩
      · intro h
        simp only [stepOrElse] at h ⊢
        exact hxt h
      · intro h
        simp only [stepOrElse] at h ⊢
        exact hxf h

theorem mirror_someLt (a b : Int) :
    Mirror (some (decide (a < b))) (some (decide (b < a))) := by
  refine ⟨by simp, ?_, ?_⟩ <;> intro h <;> simp_all <;> omega

theorem mirror_guard {g g' : Prop} [Decidable g] [Decidable g'] {x x' : Option Bool}
    (hg : g ↔ g') (hx : g → Mirror x x') :
    Mirror (if g then x else none) (if g' then x' else none) := by
  split_ifs with h1 h2 h2
  · exact hx h1
  · exact absurd (hg.mp h1) h2
  · exact absurd (hg.mpr h2) h1
  · exact mirror_none

theorem mirror_getD {x x' : Option Bool} {d d' : Bool} (hx : Mirror x x')
    (hd : d = true → d' = false) (h : x.getD d = true) : x'.getD d' = false := by
  obtain ⟨hnone, hxt, hxf⟩ := hx
  match hx1 : x, hx2 : x' with
  | none, none => simp_all
  | none, some b => simp_all
  | some b, none => simp_all
  | some b, some b' =>
      subst hx1 hx2
      simp only [Option.getD_some] at h ⊢
      subst h
      simpa using hxt rfl

theorem strictStep_eq_none {p q : Prop} [Decidable p] [Decidable q]
    (h : strictStep p q = none) : ¬ p ∧ ¬ q := by
  unfold strictStep at h
  split_ifs at h <;> simp_all

/-- `Mirror` for a strict step whose mirrored conditions are stated with
commuted conjunctions rather than literally swapped. -/
theorem mirror_strictStep2 (p q p' q' : Prop)
    [Decidable p] [Decidable q] [Decidable p'] [Decidable q']
    (hp : p ↔ q') (hq : q ↔ p') (hn : ¬ (p ∧ p')) :
    Mirror (strictStep p q) (strictStep p' q') := by
  unfold strictStep
  refine ⟨?_, ?_, ?_⟩ <;> split_ifs <;> simp_all

theorem mirror_sufficiencyStep (t : CPUType) (i1 i2 r1 r2 s1 s2 : Int)
    (h : t = cpuNormal →
      ¬ (((i2 < 0 ∧ i1 ≥ 0) ∨ (s2 ≤ 0 ∧ s1 > 0)) ∧ ((i1 < 0 ∧ i2 ≥ 0) ∨ (s1 ≤ 0 ∧ s2 > 0)))) :
    Mirror (sufficiencyStep t i1 i2 r1 r2 s1 s2) (sufficiencyStep t i2 i1 r2 r1 s2 s1) := by
  unfold sufficiencyStep
  refine ⟨?_, ?_, ?_⟩ <;> split_ifs <;> simp_all <;> omega

theorem mirror_affinityStep (a1 a2 : ℚ) : Mirror (affinityStep a1 a2) (affinityStep a2 a1) :=
  mirror_strictStep _ _ (fun ⟨x, y⟩ => lt_asymm x y)

theorem mirror_memOfferStep (ctx : CmpCtx) (req : Request) (o1 o2 : Option MemOffer) :
    Mirror (memOfferStep ctx req o1 o2) (memOfferStep ctx req o2 o1) := by
  match o1, o2 with
  | none, none => exact mirror_none
  | some v1, none => exact ⟨by simp [memOfferStep], by simp [memOfferStep], by simp [memOfferStep]⟩
  | none, some v2 => exact ⟨by simp [memOfferStep], by simp [memOfferStep], by simp [memOfferStep]⟩
  | some v1, some v2 =>
      unfold memOfferStep
      refine mirror_stepOrElse (mirror_strictStep2 _ _ _ _ and_comm and_comm (by tauto))
        (fun _ _ => ?_)
      exact mirror_strictStep _ _ (by omega)

theorem mirror_memTypeStep (req : Request) (n1 n2 : PoolNode) :
    Mirror (memTypeStep req n1 n2) (memTypeStep req n2 n1) := by
  unfold memTypeStep
  exact mirror_guard Iff.rfl
    (fun _ => mirror_strictStep2 _ _ _ _ and_comm and_comm (by tauto))

theorem mirror_hintStep (score1 score2 : Score) (d1 d2 id1 id2 : Int)
    (h : score1.hintScores = [] ↔ score2.hintScores = []) :
    Mirror (hintStep score1 score2 d1 d2 id1 id2) (hintStep score2 score1 d2 d1 id2 id1) := by
  unfold hintStep
  refine mirror_guard ?_ (fun _ => ?_)
  · rw [gt_iff_lt, gt_iff_lt, List.length_pos, List.length_pos]
    exact not_congr h
  · refine mirror_stepOrElse (mirror_strictStep _ _ (fun ⟨x, y⟩ => lt_asymm x y)) ?_
    intro ha hb
    have hhs : (combineHintScores score1.hintScores).1 = (combineHintScores score2.hintScores).1 := by
      obtain ⟨hx, hy⟩ := strictStep_eq_none ha
      exact le_antisymm (not_lt.mp hx) (not_lt.mp hy)
    refine mirror_stepOrElse (mirror_guard (by rw [hhs]) (fun _ => ?_)) (fun _ _ => ?_)
    · exact mirror_strictStep _ _ (fun ⟨x, y⟩ => lt_asymm x y)
    · refine mirror_guard ?_ (fun _ => ?_)
      · constructor
        · rintro ⟨u, v, w⟩
          refine ⟨u.symm, v.symm, ?_⟩
          rw [← u, ← v]
          exact w
        · rintro ⟨u, v, w⟩
          refine ⟨u.symm, v.symm, ?_⟩
          rw [← u, ← v]
          exact w
      · exact mirror_stepOrElse (mirror_strictStep _ _ (by omega)) (fun _ _ => mirror_someLt _ _)

theorem mirror_prioStep (req : Request) (score1 score2 : Score) :
    Mirror (prioStep req score1 score2) (prioStep req score2 score1) := by
  unfold prioStep
  cases req.cpuPrio
  all_goals dsimp only
  case lowPrio =>
    split_ifs with h1 h2 h2
    · exact mirror_none
    · exact (h2 h1.symm).elim
    · exact (h1 h2.symm).elim
    · exact mirror_strictStep2 _ _ _ _ and_comm and_comm (by omega)
  case normalPrio => exact mirror_none
  case highPrio =>
    split_ifs with h1 h2 h2
    · exact mirror_none
    · exact (h2 h1.symm).elim
    · exact (h1 h2.symm).elim
    · exact mirror_strictStep2 _ _ _ _ and_comm and_comm (by omega)

theorem mirror_depthStep (d1 d2 : Int) : Mirror (depthStep d1 d2) (depthStep d2 d1) :=
  mirror_strictStep _ _ (by omega)

theorem mirror_reservedStep (t : CPUType) (r1 r2 c1 c2 : Int) :
    Mirror (reservedStep t r1 r2 c1 c2) (reservedStep t r2 r1 c2 c1) := by
  unfold reservedStep
  exact mirror_guard Iff.rfl (fun _ => mirror_strictStep _ _ (by omega))

theorem mirror_isolateStep (req : Request) (i1 i2 id1 id2 : Int) :
    Mirror (isolateStep req i1 i2 id1 id2) (isolateStep req i2 i1 id2 id1) := by
  unfold isolateStep
  refine mirror_guard (by tauto) (fun _ => ?_)
  exact mirror_stepOrElse (mirror_strictStep _ _ (by omega)) (fun _ _ => mirror_someLt _ _)

theorem mirror_normalPrioStep (req : Request) (score1 score2 : Score) :
    Mirror (normalPrioStep req score1 score2) (normalPrioStep req score2 score1) := by
  unfold normalPrioStep
  refine mirror_guard Iff.rfl (fun _ => ?_)
  split_ifs with h1 h2 h2
  · exact mirror_none
  · exact (h2 h1.symm).elim
  · exact (h1 h2.symm).elim
  · exact mirror_strictStep2 _ _ _ _ and_comm and_comm (by omega)

theorem mirror_fullCPUStep (req : Request) (s1 s2 id1 id2 : Int) :
    Mirror (fullCPUStep req s1 s2 id1 id2) (fullCPUStep req s2 s1 id2 id1) := by
  unfold fullCPUStep
  refine mirror_guard (by tauto) (fun _ => ?_)
  exact mirror_stepOrElse (mirror_strictStep _ _ (by omega)) (fun _ _ => mirror_someLt _ _)

theorem mirror_colocatedStep (req : Request) (c1 c2 : Int) :
    Mirror (colocatedStep req c1 c2) (colocatedStep req c2 c1) := by
  unfold colocatedStep
  exact mirror_guard Iff.rfl (fun _ => mirror_strictStep _ _ (by omega))

theorem mirror_sharedStep (req : Request) (s1 s2 : Int) :
    Mirror (sharedStep req s1 s2) (sharedStep req s2 s1) := by
  unfold sharedStep
  exact mirror_guard Iff.rfl (fun _ => mirror_strictStep _ _ (by omega))

/-- Assembled antisymmetry of the comparator ladder over two fixed pool
nodes, under the two side conditions the ladder actually needs: the two
pools must not be "crossed" in the normal-kind sufficiency veto, and
their topology-hint maps must be both empty or both non-empty. -/
theorem compareNodes_antisym (ctx : CmpCtx) (req : Request) (n1 n2 : PoolNode)
    (scores : Int → Score) (affinity : Int → Int)
    (hsuff : req.cpuType = cpuNormal →
      ¬ ((((scores n2.nodeID).isolated < 0 ∧ (scores n1.nodeID).isolated ≥ 0) ∨
          ((scores n2.nodeID).shared ≤ 0 ∧ (scores n1.nodeID).shared > 0)) ∧
         (((scores n1.nodeID).isolated < 0 ∧ (scores n2.nodeID).isolated ≥ 0) ∨
          ((scores n1.nodeID).shared ≤ 0 ∧ (scores n2.nodeID).shared > 0))))
    (hhint : (scores n1.nodeID).hintScores = [] ↔ (scores n2.nodeID).hintScores = [])
    (h : compareNodes ctx req n1 n2 scores affinity = true) :
    compareNodes ctx req n2 n1 scores affinity = false := by
  unfold compareNodes at h ⊢
  refine mirror_getD ?_ (by simp <;> omega) h
  refine mirror_stepOrElse (mirror_sufficiencyStep _ _ _ _ _ _ _ hsuff) (fun _ _ => ?_)
  refine mirror_stepOrElse (mirror_affinityStep _ _) (fun _ _ => ?_)
  refine mirror_stepOrElse (mirror_memOfferStep _ _ _ _) (fun _ _ => ?_)
  refine mirror_stepOrElse (mirror_memTypeStep _ _ _) (fun _ _ => ?_)
  refine mirror_stepOrElse (mirror_hintStep _ _ _ _ _ _ hhint) (fun _ _ => ?_)
  refine mirror_stepOrElse (mirror_prioStep _ _ _) (fun _ _ => ?_)
  refine mirror_stepOrElse (mirror_depthStep _ _) (fun _ _ => ?_)
  refine mirror_stepOrElse (mirror_reservedStep _ _ _ _ _) (fun _ _ => ?_)
  refine mirror_stepOrElse (mirror_isolateStep _ _ _ _ _) (fun _ _ => ?_)
  refine mirror_stepOrElse (mirror_normalPrioStep _ _ _) (fun _ _ => ?_)
  refine mirror_stepOrElse (mirror_fullCPUStep _ _ _ _ _) (fun _ _ => ?_)
  exact mirror_stepOrElse (mirror_colocatedStep _ _ _) (fun _ _ => mirror_sharedStep _ _ _)

/-! ### Claim C1 -/

/-- C1 (amended): `compareScores` is antisymmetric — `compareScores(req,
pools, scores, affinity, i, j) = true` implies `compareScores(..., j, i)
= false` — provided (a) the two pools' topology-hint score maps are both
empty or both non-empty, and (b) for normal CPU kind the two pools are
not crossed in the sufficiency veto (one insufficient only in isolated
capacity while the other is insufficient only in shared capacity).  The
unamended claim (antisymmetry even when exactly one pool has a non-empty
hint map) is refuted by `claim_C1_counterexample`. -/
theorem claim_C1_compareScores_antisym (ctx : CmpCtx) (req : Request)
    (pools : List PoolNode) (scores : Int → Score) (affinity : Int → Int) (i j : Nat)
    (hsuff : req.cpuType = cpuNormal →
      ¬ ((((scores (pools.getD j default).nodeID).isolated < 0 ∧
           (scores (pools.getD i default).nodeID).isolated ≥ 0) ∨
          ((scores (pools.getD j default).nodeID).shared ≤ 0 ∧
           (scores (pools.getD i default).nodeID).shared > 0)) ∧
         (((scores (pools.getD i default).nodeID).isolated < 0 ∧
           (scores (pools.getD j default).nodeID).isolated ≥ 0) ∨
          ((scores (pools.getD i default).nodeID).shared ≤ 0 ∧
           (scores (pools.getD j default).nodeID).shared > 0))))
    (hhint : (scores (pools.getD i default).nodeID).hintScores = [] ↔
             (scores (pools.getD j default).nodeID).hintScores = [])
    (h : compareScores ctx req pools scores affinity i j = true) :
    compareScores ctx req pools scores affinity j i = false :=
  compareNodes_antisym ctx req (pools.getD i default) (pools.getD j default)
    scores affinity hsuff hhint h

/-- Request used by the C1 counterexample: plain normal-kind request. -/
def c1Req : Request := ⟨cpuNormal, normalPrio, 0, false, 0⟩

/-- Context used by the C1 counterexample. -/
def c1Ctx : CmpCtx := ⟨fun _ => 0⟩

/-- Pool A of the C1 counterexample: id 1, depth 1, one hint score 1. -/
def c1NodeA : PoolNode := ⟨1, "A", 1, [], [], fun _ => false⟩

/-- Pool B of the C1 counterexample: id 2, depth 2, no hint scores. -/
def c1NodeB : PoolNode := ⟨2, "B", 2, [], [], fun _ => false⟩

/-- Scores for the C1 counterexample: pool A has hint-score map `[1]`,
pool B has an empty hint-score map; otherwise identical. -/
def c1Scores : Int → Score := fun i =>
  if i = 1 then ⟨0, 0, 1, 0, 0, 0, [1], 0, none⟩ else ⟨0, 0, 1, 0, 0, 0, [], 0, none⟩

/-- The pool slice of the C1 counterexample. -/
def c1Pools : List PoolNode := [c1NodeA, c1NodeB]

/-- C1 counterexample: with pool A (some hint score, shallower) and pool
B (no hint scores, deeper), `compareScores` answers `true` for both
`(A, B)` and `(B, A)`: A wins on hints, B wins on depth because the hint
rung is skipped entirely when the first pool has no hint scores.  This
refutes the claimed antisymmetry in the case where exactly one of the
two pools has a non-empty topology-hint score map. -/
theorem claim_C1_counterexample :
    compareScores c1Ctx c1Req c1Pools c1Scores (fun _ => 0) 0 1 = true ∧
    compareScores c1Ctx c1Req c1Pools c1Scores (fun _ => 0) 1 0 = true := by
  constructor <;>
    norm_num [compareScores, compareNodes, c1Ctx, c1Req, c1Pools, c1Scores,
      c1NodeA, c1NodeB, sufficiencyStep, affinityStep, memOfferStep, memTypeStep,
      hintStep, prioStep, depthStep, reservedStep, isolateStep, normalPrioStep,
      fullCPUStep, colocatedStep, sharedStep, strictStep, stepOrElse,
      combineHintScores, affinityScore, ancestorScore, subtreeScore,
      memoryUnspec, memoryPreserve, Score.prioCapacity]

/-- Scores for the C1 witness: every pool scores the default (all-zero,
no hints). -/
def c1wScores : Int → Score := fun _ => ⟨0, 0, 0, 0, 0, 0, [], 0, none⟩

/-- Pools for the C1 witness: ids 1 and 2, both at depth 1. -/
def c1wPools : List PoolNode :=
  [⟨1, "A", 1, [], [], fun _ => false⟩, ⟨2, "B", 1, [], [], fun _ => false⟩]

/-- Witness for C1: at a concrete input satisfying both side conditions,
`compareScores` answers `true` on `(0, 1)` and the theorem yields `false`
on `(1, 0)`. -/
theorem claim_C1_witness :
    compareScores c1Ctx c1Req c1wPools c1wScores (fun _ => 0) 0 1 = true ∧
    compareScores c1Ctx c1Req c1wPools c1wScores (fun _ => 0) 1 0 = false := by
  have h : compareScores c1Ctx c1Req c1wPools c1wScores (fun _ => 0) 0 1 = true := by
    norm_num [compareScores, compareNodes, c1Ctx, c1Req, c1wPools, c1wScores,
      sufficiencyStep, affinityStep, memOfferStep, memTypeStep,
      hintStep, prioStep, depthStep, reservedStep, isolateStep, normalPrioStep,
      fullCPUStep, colocatedStep, sharedStep, strictStep, stepOrElse,
      combineHintScores, affinityScore, ancestorScore, subtreeScore,
      memoryUnspec, memoryPreserve, Score.prioCapacity]
  refine ⟨h, claim_C1_compareScores_antisym c1Ctx c1Req c1wPools c1wScores (fun _ => 0) 0 1
    ?_ ?_ h⟩
  · intro _
    norm_num [c1wPools, c1wScores]
  · norm_num [c1wPools, c1wScores]

/-! ### Hardware topology validation (`checkHWTopology`) -/

/-- One package (socket) of the hardware snapshot: its id, the NUMA
node ids it contains (`pkg.NodeIDs()`), its die ids (`pkg.DieIDs()`) and
the NUMA node ids of each die (`pkg.DieNodeIDs(die)`). -/
structure SysPackage where
  id : Int
  nodeIDs : List Int
  dieIDs : List Int
  dieNodeIDs : Int → List Int

/-- The hardware snapshot consulted by `checkHWTopology`: package list
(`PackageIDs()` in order), NUMA node ids (`NodeIDs()`), and the NUMA
distance matrix (`NodeDistance`). -/
structure HWSystem where
  packages : List SysPackage
  nodeIDs : List Int
  nodeDistance : Int → Int → Int

/-- First loop of `checkHWTopology`: two distinct sockets share a NUMA
node (fatal). -/
def socketsShareNode (sys : HWSystem) : Bool :=
  sys.packages.any fun p1 => sys.packages.any fun p2 =>
    p1.id != p2.id && p1.nodeIDs.any (fun n => p2.nodeIDs.contains n)

/-- Second loop of `checkHWTopology`: two distinct dies of one package
share a NUMA node (returns `omitDies = true`, no error). -/
def diesShareNode (sys : HWSystem) : Bool :=
  sys.packages.any fun pkg =>
    pkg.dieIDs.any fun d1 => pkg.dieIDs.any fun d2 =>
      d1 != d2 && (pkg.dieNodeIDs d1).any (fun n => (pkg.dieNodeIDs d2).contains n)

/-- Third loop of `checkHWTopology`: the distance matrix is asymmetric
somewhere (fatal). -/
def asymmetricDistance (sys : HWSystem) : Bool :=
  sys.nodeIDs.any fun a => sys.nodeIDs.any fun b =>
    sys.nodeDistance a b != sys.nodeDistance b a

/-- `checkHWTopology`: `.error ()` models a non-nil error (fatal init),
`.ok omitDies` models `(omitDies, nil)`.  The three checks run in source
order: socket sharing, die sharing (early `return true, nil`), distance
symmetry. -/
def checkHWTopology (sys : HWSystem) : Except Unit Bool :=
  if socketsShareNode sys then .error ()
  else if diesShareNode sys then .ok true
  else if asymmetricDistance sys then .error ()
  else .ok false

/-! ### Claim C2 -/

/-- C2 (amended): if the NUMA distance matrix is asymmetric then
`checkHWTopology` returns an error — provided no two dies of one package
share a NUMA node.  In the die-sharing case the function instead returns
`(omitDies = true, nil)` before ever reaching the symmetry check; that
case refutes the unamended claim (`claim_C2_counterexample`). -/
theorem claim_C2_asym_distance_fatal (sys : HWSystem)
    (hdies : diesShareNode sys = false)
    (hasym : asymmetricDistance sys = true) :
    checkHWTopology sys = .error () := by
  unfold checkHWTopology
  split_ifs <;> simp_all

/-- Hardware snapshot refuting C2 as stated: one socket whose two dies
both contain NUMA nodes 0 and 1, with an asymmetric distance matrix
(d(0,1) = 20 but d(1,0) = 10). -/
def c2Sys : HWSystem :=
  { packages := [⟨0, [0, 1], [0, 1], fun _ => [0, 1]⟩]
    nodeIDs := [0, 1]
    nodeDistance := fun a b => if a = 0 ∧ b = 1 then 20 else 10 }

/-- C2 counterexample: on `c2Sys` the distance matrix is asymmetric and
NUMA nodes are shared between dies of one package, yet `checkHWTopology`
returns `(true, nil)` — no error, the build does not abort. -/
theorem claim_C2_counterexample :
    checkHWTopology c2Sys = Except.ok true ∧ asymmetricDistance c2Sys = true :=
  ⟨by rfl, by decide⟩

/-- Hardware snapshot for the C2 witness: a single-die socket with the
same asymmetric distance matrix. -/
def c2wSys : HWSystem :=
  { packages := [⟨0, [0, 1], [0], fun _ => [0, 1]⟩]
    nodeIDs := [0, 1]
    nodeDistance := fun a b => if a = 0 ∧ b = 1 then 20 else 10 }

/-- Witness for C2: on `c2wSys` both hypotheses hold concretely and the
theorem yields the fatal error. -/
theorem claim_C2_witness :
    diesShareNode c2wSys = false ∧ asymmetricDistance c2wSys = true ∧
    checkHWTopology c2wSys = Except.error () :=
  ⟨by decide, by decide, claim_C2_asym_distance_fatal c2wSys (by decide) (by decide)⟩

/-! ### PMEM/HBM NUMA-node assignment (`assignNUMANodes`) -/

/-- A NUMA-node-to-pool assignment (`map[Node][]idset.ID`): a total
function from the pool node's identity to its id list; pool nodes are
identified by an `Int` and absent keys give the empty list. -/
def Assignment : Type := Int → List Int

instance : Inhabited Assignment := ⟨fun _ => []⟩

/-- Inner loop of `assignNUMANodes` collecting, for one XMEM node `x`,
the DRAM ids at minimal distance: the first candidate seeds the set; an
equal distance appends; a smaller distance restarts the set. -/
def collectMin (dist : Int → Int → Int) (x : Int) : List Int → List Int → List Int
  | [], min => min
  | dramID :: rest, min =>
      if min.length < 1 then collectMin dist x rest [dramID]
      else
        if dist x dramID = dist x (min.headD 0) then collectMin dist x rest (min ++ [dramID])
        else if dist x dramID < dist x (min.headD 0) then collectMin dist x rest [dramID]
        else collectMin dist x rest min

/-- `closest[xmemID]`: the minimum-distance DRAM set of `x`, sorted by
ascending NUMA id (`sort.Slice` with `<`). -/
def closestDram (dist : Int → Int → Int) (dram : List Int) (x : Int) : List Int :=
  List.insertionSort (· ≤ ·) (collectMin dist x dram [])

/-- The taker-selection loop of `assignNUMANodes`: scan the sorted
min-distance set, keeping the surrogate currently holding strictly the
fewest assigned ids (ties keep the earlier candidate).  The accumulator
is `(taker, takerID)`; `none` models the initial nil taker. -/
def chooseTakerGo (s : Int → Int) (a : Assignment) :
    List Int → Option (Int × Int) → Option (Int × Int)
  | [], acc => acc
  | d :: rest, acc =>
      match acc with
      | none => chooseTakerGo s a rest (some (s d, d))
      | some (taker, takerID) =>
          if (a taker).length > (a (s d)).length then chooseTakerGo s a rest (some (s d, d))
          else chooseTakerGo s a rest (some (taker, takerID))

/-- Select the taker surrogate for one XMEM node from its min set. -/
def chooseTaker (s : Int → Int) (a : Assignment) (min : List Int) : Option (Int × Int) :=
  chooseTakerGo s a min none

/-- The XMEM loop of `assignNUMANodes`: assign each PMEM/HBM node (in
the given map-iteration order) to its chosen surrogate, appending its id;
`none` models the `log.Panic` when no surrogate exists. -/
def assignXmemNodes (s : Int → Int) (dist : Int → Int → Int) (ds : List Int) :
    List Int → Assignment → Option Assignment
  | [], a => some a
  | x :: xs, a =>
      match chooseTaker s a (closestDram dist ds x) with
      | none => none
      | some (taker, _) =>
          assignXmemNodes s dist ds xs (fun n => if n = taker then a taker ++ [x] else a n)

/-- The DRAM loop of `assignNUMANodes`: prepend each DRAM id to its own
surrogate's list. -/
def assignDramNodes (s : Int → Int) : List Int → Assignment → Assignment
  | [], a => a
  | d :: ds2, a => assignDramNodes s ds2 (fun n => if n = s d then d :: a n else a n)

/-- `assignNUMANodes(surrogates, xmem, dram)` with `s` the surrogate
map, `xs` the XMEM (PMEM or HBM) map iteration order and `ds` the DRAM
map iteration order. -/
def assignNUMANodes (s : Int → Int) (dist : Int → Int → Int)
    (xs ds : List Int) : Option Assignment :=
  match assignXmemNodes s dist ds xs (fun _ => []) with
  | none => none
  | some a => some (assignDramNodes s ds a)

/-- The intermediate assignment after the XMEM loop has processed a
prefix of the iteration order (empty map when the loop panicked). -/
def xmemState (s : Int → Int) (dist : Int → Int → Int) (ds : List Int)
    (prefix1 : List Int) : Assignment :=
  (assignXmemNodes s dist ds prefix1 (fun _ => [])).getD (fun _ => [])

/-- `idset.NewIDSet(l...).SortedMembers()`: deduplicate and sort. -/
def sortedMembers (l : List Int) : List Int :=
  List.insertionSort (· ≤ ·) l.dedup

/-- The HBM merge loop of `buildPoolsByTopology` (lines 173-175): for
every key of the HBM map, replace the pool's list by the sorted members
of the set-union of both lists. -/
def mergeAssigned (hbms : Assignment) : List Int → Assignment → Assignment
  | [], a => a
  | n :: ns, a =>
      mergeAssigned hbms ns (fun m => if m = n then sortedMembers (a n ++ hbms n) else a m)

/-- The NUMA-node-to-pool assignment computed by `buildPoolsByTopology`
(lines 171-175): the PMEM pass, the HBM pass, and the set-union merge
over the HBM map's keys. -/
def buildPoolAssignment (s : Int → Int) (dist : Int → Int → Int)
    (pmems hbms ds hbmKeys : List Int) : Option Assignment :=
  match assignNUMANodes s dist pmems ds, assignNUMANodes s dist hbms ds with
  | some pm, some hm => some (mergeAssigned hm hbmKeys pm)
  | _, _ => none

/-- `min` is the set of elements of `pool` at minimal `dist`-distance
from `x`. -/
def IsMinSet (dist : Int → Int → Int) (x : Int) (pool : List Int) (min : List Int) : Prop :=
  (∀ d ∈ min, d ∈ pool) ∧
  (∀ d ∈ min, ∀ p ∈ pool, dist x d ≤ dist x p) ∧
  (∀ p ∈ pool, (∀ q ∈ pool, dist x p ≤ dist x q) → p ∈ min)

/-- All DRAM ids before any XMEM ids: the list splits into a DRAM part
followed by an XMEM part. -/
def dramFirst (ds xmem : List Int) (l : List Int) : Prop :=
  ∃ dp xp, l = dp ++ xp ∧ (∀ d ∈ dp, d ∈ ds) ∧ (∀ x ∈ xp, x ∈ xmem)

theorem isMinSet_singleton (dist : Int → Int → Int) (x d : Int) :
    IsMinSet dist x [d] [d] := by
  refine ⟨by simp, by simp, by simp⟩

/-- Invariant of the min-collection loop: starting from a processed
prefix and its min set, processing the rest yields the min set of the
whole pool. -/
theorem collectMin_spec (dist : Int → Int → Int) (x : Int) :
    ∀ (rest processed min : List Int),
      (processed = [] ∧ min = []) ∨ (IsMinSet dist x processed min ∧ min ≠ []) →
      (processed ++ rest = [] ∧ collectMin dist x rest min = []) ∨
        (IsMinSet dist x (processed ++ rest) (collectMin dist x rest min) ∧
          collectMin dist x rest min ≠ []) := by
  intro rest
  induction rest with
  | nil =>
      intro processed min h
      rcases h with ⟨hp, hm⟩ | ⟨hmin, hne⟩
      · subst hp hm; exact Or.inl ⟨rfl, rfl⟩
      · exact Or.inr ⟨by simpa using hmin, by simpa using hne⟩
  | cons dramID rest ih =>
      intro processed min h
      rcases h with ⟨hp, hm⟩ | ⟨hmin, hne⟩
      · subst hp hm
        have hstep : collectMin dist x (dramID :: rest) [] = collectMin dist x rest [dramID] := by
          simp [collectMin]
        rw [hstep]
        have := ih [dramID] [dramID]
          (Or.inr ⟨isMinSet_singleton dist x dramID, by simp⟩)
        simpa using this
      · obtain ⟨hsub, hmindist, hclosed⟩ := hmin
        have hlen : ¬ (min.length < 1) := by
          cases min with
          | nil => exact absurd rfl hne
          | cons a l => simp
        have hh0mem : min.headD 0 ∈ min := by
          cases min with
          | nil => exact absurd rfl hne
          | cons a l => simp
        have hh0proc : min.headD 0 ∈ processed := hsub _ hh0mem
        -- every element of min has the head's distance
        have hsamedist : ∀ d ∈ min, dist x d = dist x (min.headD 0) :=
          fun d hd => le_antisymm (hmindist d hd _ hh0proc)
            (hmindist _ hh0mem _ (hsub d hd))
        by_cases heq : dist x dramID = dist x (min.headD 0)
        · have hstep : collectMin dist x (dramID :: rest) min =
              collectMin dist x rest (min ++ [dramID]) := by
            rw [collectMin, if_neg hlen, if_pos heq]
          rw [hstep]
          have hinv : IsMinSet dist x (processed ++ [dramID]) (min ++ [dramID]) := by
            refine ⟨?_, ?_, ?_⟩
            · intro d hd
              rcases List.mem_append.mp hd with hd | hd
              · exact List.mem_append.mpr (Or.inl (hsub d hd))
              · simp at hd; subst hd; simp
            · intro d hd p hp
              have hdd : dist x d = dist x (min.headD 0) := by
                rcases List.mem_append.mp hd with hd | hd
                · exact hsamedist d hd
                · simp at hd; subst hd; exact heq
              rcases List.mem_append.mp hp with hp | hp
              · rw [hdd]; exact hmindist _ hh0mem p hp
              · simp at hp; subst hp; rw [hdd, heq]
            · intro p hp hmin
              rcases List.mem_append.mp hp with hp | hp
              · refine List.mem_append.mpr (Or.inl (hclosed p hp ?_))
                intro q hq
                exact hmin q (List.mem_append.mpr (Or.inl hq))
              · simp at hp; subst hp; simp
          have := ih (processed ++ [dramID]) (min ++ [dramID])
            (Or.inr ⟨hinv, by simp⟩)
          rwa [List.append_assoc, List.singleton_append] at this
        · by_cases hlt : dist x dramID < dist x (min.headD 0)
          · have hstep : collectMin dist x (dramID :: rest) min =
                collectMin dist x rest [dramID] := by
              rw [collectMin, if_neg hlen, if_neg heq, if_pos hlt]
            rw [hstep]
            have hinv : IsMinSet dist x (processed ++ [dramID]) [dramID] := by
              refine ⟨by simp, ?_, ?_⟩
              · intro d hd p hp
                simp at hd; subst hd
                rcases List.mem_append.mp hp with hp | hp
                · exact le_of_lt (lt_of_lt_of_le hlt (hmindist _ hh0mem p hp))
                · simp at hp; subst hp; exact le_refl _
              · intro p hp hmin
                rcases List.mem_append.mp hp with hp | hp
                · exfalso
                  have h1 : dist x p ≤ dist x dramID := hmin dramID (by simp)
                  have h2 : dist x (min.headD 0) ≤ dist x p := hmindist _ hh0mem p hp
                  omega
                · simpa using hp
            have := ih (processed ++ [dramID]) [dramID] (Or.inr ⟨hinv, by simp⟩)
            rwa [List.append_assoc, List.singleton_append] at this
          · have hstep : collectMin dist x (dramID :: rest) min =
                collectMin dist x rest min := by
              rw [collectMin, if_neg hlen, if_neg heq, if_neg hlt]
            rw [hstep]
            have hinv : IsMinSet dist x (processed ++ [dramID]) min := by
              refine ⟨?_, ?_, ?_⟩
              · intro d hd
                exact List.mem_append.mpr (Or.inl (hsub d hd))
              · intro d hd p hp
                rcases List.mem_append.mp hp with hp | hp
                · exact hmindist d hd p hp
                · simp at hp; subst hp
                  rw [hsamedist d hd]
                  omega
              · intro p hp hmin
                rcases List.mem_append.mp hp with hp | hp
                · refine hclosed p hp ?_
                  intro q hq
                  exact hmin q (List.mem_append.mpr (Or.inl hq))
                · exfalso
                  simp at hp
                  have h1 : dist x p ≤ dist x (min.headD 0) :=
                    hmin _ (List.mem_append.mpr (Or.inl hh0proc))
                  rw [hp] at h1
                  omega
            have := ih (processed ++ [dramID]) min (Or.inr ⟨hinv, hne⟩)
            rwa [List.append_assoc, List.singleton_append] at this

theorem isMinSet_perm (dist : Int → Int → Int) (x : Int) (pool : List Int)
    {m1 m2 : List Int} (hp : List.Perm m1 m2) (h : IsMinSet dist x pool m1) :
    IsMinSet dist x pool m2 := by
  obtain ⟨h1, h2, h3⟩ := h
  refine ⟨?_, ?_, ?_⟩
  · intro d hd; exact h1 d (hp.mem_iff.mpr hd)
  · intro d hd; exact h2 d (hp.mem_iff.mpr hd)
  · intro p hpmem hmin; exact hp.mem_iff.mp (h3 p hpmem hmin)

theorem closestDram_isMinSet (dist : Int → Int → Int) (ds : List Int) (x : Int)
    (hds : ds ≠ []) :
    IsMinSet dist x ds (closestDram dist ds x) ∧ closestDram dist ds x ≠ [] := by
  have h := collectMin_spec dist x ds [] [] (Or.inl ⟨rfl, rfl⟩)
  rcases h with ⟨habs, _⟩ | ⟨hmin, hne⟩
  · exact absurd (by simpa using habs) hds
  · have hperm : List.Perm (List.insertionSort (· ≤ ·) (collectMin dist x ds []))
        (collectMin dist x ds []) := List.perm_insertionSort _ _
    constructor
    · exact isMinSet_perm dist x ds hperm.symm (by simpa using hmin)
    · intro hnil
      rw [closestDram] at hnil
      have := hperm.length_eq
      rw [hnil] at this
      cases hcm : collectMin dist x ds [] with
      | nil => exact hne hcm
      | cons a l => rw [hcm] at this; simp at this

theorem closestDram_sorted (dist : Int → Int → Int) (ds : List Int) (x : Int) :
    List.Sorted (· ≤ ·) (closestDram dist ds x) :=
  List.sorted_insertionSort _ _

/-- `t` is the first element of `l` attaining the minimal assigned-list
length: everything before it is strictly longer, everything after it no
shorter. -/
def FirstMin (s : Int → Int) (a : Assignment) (l : List Int) (t : Int) : Prop :=
  ∃ l1 l2, l = l1 ++ t :: l2 ∧
    (∀ d ∈ l1, (a (s d)).length > (a (s t)).length) ∧
    (∀ d ∈ l2, (a (s d)).length ≥ (a (s t)).length)

theorem chooseTakerGo_spec (s : Int → Int) (a : Assignment) :
    ∀ (rest pre : List Int) (t : Int), FirstMin s a pre t →
      ∃ t', chooseTakerGo s a rest (some (s t, t)) = some (s t', t') ∧
        FirstMin s a (pre ++ rest) t' := by
  intro rest
  induction rest with
  | nil =>
      intro pre t ht
      exact ⟨t, rfl, by simpa using ht⟩
  | cons d rest ih =>
      intro pre t ht
      obtain ⟨l1, l2, hsplit, hbefore, hafter⟩ := ht
      by_cases hgt : (a (s t)).length > (a (s d)).length
      · have hstep : chooseTakerGo s a (d :: rest) (some (s t, t)) =
            chooseTakerGo s a rest (some (s d, d)) := by
          rw [chooseTakerGo, if_pos hgt]
        rw [hstep]
        have hfm : FirstMin s a (pre ++ [d]) d := by
          refine ⟨pre, [], by simp, ?_, by simp⟩
          intro e he
          rw [hsplit] at he
          rcases List.mem_append.mp he with he | he
          · exact lt_trans hgt (hbefore e he)
          · rcases List.mem_cons.mp he with he | he
            · rw [he]; exact hgt
            · exact lt_of_lt_of_le hgt (hafter e he)
        have := ih (pre ++ [d]) d hfm
        rwa [List.append_assoc, List.singleton_append] at this
      · have hstep : chooseTakerGo s a (d :: rest) (some (s t, t)) =
            chooseTakerGo s a rest (some (s t, t)) := by
          rw [chooseTakerGo, if_neg hgt]
        rw [hstep]
        have hfm : FirstMin s a (pre ++ [d]) t := by
          refine ⟨l1, l2 ++ [d], by rw [hsplit]; simp, hbefore, ?_⟩
          intro e he
          rcases List.mem_append.mp he with he | he
          · exact hafter e he
          · simp at he; rw [he]; omega
        have := ih (pre ++ [d]) t hfm
        rwa [List.append_assoc, List.singleton_append] at this

theorem chooseTaker_spec (s : Int → Int) (a : Assignment) (min : List Int)
    (h : min ≠ []) :
    ∃ t, chooseTaker s a min = some (s t, t) ∧ FirstMin s a min t := by
  cases min with
  | nil => exact absurd rfl h
  | cons d rest =>
      have hstep : chooseTaker s a (d :: rest) = chooseTakerGo s a rest (some (s d, d)) := rfl
      rw [hstep]
      have := chooseTakerGo_spec s a rest [d] d ⟨[], [], by simp, by simp, by simp⟩
      simpa using this

theorem firstMin_mem {s : Int → Int} {a : Assignment} {l : List Int} {t : Int}
    (h : FirstMin s a l t) : t ∈ l := by
  obtain ⟨l1, l2, hsplit, _, _⟩ := h
  rw [hsplit]
  simp

theorem firstMin_minimal {s : Int → Int} {a : Assignment} {l : List Int} {t : Int}
    (h : FirstMin s a l t) : ∀ d ∈ l, (a (s t)).length ≤ (a (s d)).length := by
  obtain ⟨l1, l2, hsplit, hbefore, hafter⟩ := h
  intro d hd
  rw [hsplit] at hd
  rcases List.mem_append.mp hd with hd | hd
  · exact le_of_lt (hbefore d hd)
  · rcases List.mem_cons.mp hd with hd | hd
    · rw [hd]
    · exact hafter d hd

theorem firstMin_tie_smallest {s : Int → Int} {a : Assignment} {l : List Int} {t : Int}
    (hsort : List.Sorted (· ≤ ·) l) (h : FirstMin s a l t) :
    ∀ d ∈ l, (a (s d)).length = (a (s t)).length → t ≤ d := by
  obtain ⟨l1, l2, hsplit, hbefore, hafter⟩ := h
  intro d hd hlen
  rw [hsplit] at hd hsort
  rcases List.mem_append.mp hd with hd | hd
  · exact absurd hlen (by have := hbefore d hd; omega)
  · rcases List.mem_cons.mp hd with hd | hd
    · rw [hd]
    · have hpair := (List.pairwise_append.mp hsort).2.1
      exact (List.pairwise_cons.mp hpair).1 d hd

theorem assignXmem_some (s : Int → Int) (dist : Int → Int → Int) (ds : List Int)
    (hds : ds ≠ []) :
    ∀ (xs : List Int) (a : Assignment), ∃ a', assignXmemNodes s dist ds xs a = some a' := by
  intro xs
  induction xs with
  | nil => intro a; exact ⟨a, rfl⟩
  | cons x xs ih =>
      intro a
      obtain ⟨_, hne⟩ := closestDram_isMinSet dist ds x hds
      obtain ⟨t, hct, _⟩ := chooseTaker_spec s a (closestDram dist ds x) hne
      obtain ⟨a', ha'⟩ := ih (fun n => if n = s t then a (s t) ++ [x] else a n)
      refine ⟨a', ?_⟩
      rw [assignXmemNodes, hct]
      exact ha'

theorem xmemState_eq (s : Int → Int) (dist : Int → Int → Int) (ds : List Int)
    (hds : ds ≠ []) (p : List Int) :
    assignXmemNodes s dist ds p (fun _ => []) = some (xmemState s dist ds p) := by
  obtain ⟨a', ha'⟩ := assignXmem_some s dist ds hds p (fun _ => [])
  rw [xmemState, ha']
  rfl

theorem assignXmem_append (s : Int → Int) (dist : Int → Int → Int) (ds : List Int) :
    ∀ (xs1 xs2 : List Int) (a : Assignment),
      assignXmemNodes s dist ds (xs1 ++ xs2) a =
        (assignXmemNodes s dist ds xs1 a).bind (fun a1 => assignXmemNodes s dist ds xs2 a1) := by
  intro xs1
  induction xs1 with
  | nil => intro xs2 a; rfl
  | cons x xs1 ih =>
      intro xs2 a
      rw [List.cons_append, assignXmemNodes, assignXmemNodes]
      cases chooseTaker s a (closestDram dist ds x) with
      | none => rfl
      | some pair => exact ih xs2 _

theorem assignXmem_mem (s : Int → Int) (dist : Int → Int → Int) (ds : List Int) :
    ∀ (xs : List Int) (a a' : Assignment),
      assignXmemNodes s dist ds xs a = some a' →
      ∀ n y, y ∈ a' n → y ∈ a n ∨ y ∈ xs := by
  intro xs
  induction xs with
  | nil =>
      intro a a' h n y hy
      cases h
      exact Or.inl hy
  | cons x xs ih =>
      intro a a' h n y hy
      rw [assignXmemNodes] at h
      cases hct : chooseTaker s a (closestDram dist ds x) with
      | none => rw [hct] at h; cases h
      | some pair =>
          rw [hct] at h
          have := ih _ a' h n y hy
          rcases this with hmem | hmem
          · by_cases hn : n = pair.1
            · rw [hn] at hmem
              simp only [if_pos rfl] at hmem
              rcases List.mem_append.mp hmem with hmem | hmem
              · by_cases hn2 : n = pair.1
                · rw [hn2]; exact Or.inl hmem
                · exact Or.inl (by rw [hn]; exact hmem)
              · simp at hmem
                exact Or.inr (by rw [hmem]; simp)
            · simp only [if_neg hn] at hmem
              exact Or.inl hmem
          · exact Or.inr (List.mem_cons_of_mem x hmem)

theorem assignXmem_count_preserve (s : Int → Int) (dist : Int → Int → Int)
    (ds : List Int) (x : Int) :
    ∀ (xs : List Int) (a a' : Assignment),
      assignXmemNodes s dist ds xs a = some a' → x ∉ xs →
      ∀ n, (a' n).count x = (a n).count x := by
  intro xs
  induction xs with
  | nil =>
      intro a a' h _ n
      cases h
      rfl
  | cons y xs ih =>
      intro a a' h hx n
      rw [assignXmemNodes] at h
      cases hct : chooseTaker s a (closestDram dist ds y) with
      | none => rw [hct] at h; cases h
      | some pair =>
          rw [hct] at h
          have hyx : y ≠ x := fun he => hx (by rw [← he]; simp)
          have := ih _ a' h (fun hm => hx (List.mem_cons_of_mem y hm)) n
          rw [this]
          by_cases hn : n = pair.1
          · simp only [if_pos hn]
            rw [List.count_append]
            simp [List.count_singleton, hyx]
            exact (by rw [hn])
          · simp only [if_neg hn]

theorem assignDram_count_preserve (s : Int → Int) (x : Int) :
    ∀ (ds2 : List Int) (a : Assignment), x ∉ ds2 →
      ∀ n, ((assignDramNodes s ds2 a) n).count x = (a n).count x := by
  intro ds2
  induction ds2 with
  | nil => intro a _ n; rfl
  | cons d ds2 ih =>
      intro a hx n
      rw [assignDramNodes]
      have hdx : d ≠ x := fun he => hx (by rw [← he]; simp)
      rw [ih _ (fun hm => hx (List.mem_cons_of_mem d hm)) n]
      by_cases hn : n = s d
      · simp only [if_pos hn, List.count_cons]
        have : ¬ (x = d) := fun he => hdx he.symm
        simp [this, hdx]
      · simp [if_neg hn]

/-! ### Claim C4 -/

/-- C4: in `assignNUMANodes`, every PMEM/HBM node `x` (position `k` of
the XMEM iteration order) is assigned to exactly one surrogate: among the
DRAM ids at minimum distance from `x` (`closestDram`, which is the true
argmin set sorted ascending), the chosen `d₀` has a surrogate holding the
fewest currently-assigned ids, ties going to the smallest DRAM id; and in
the final map `x` occurs exactly once, in the list of `s d₀` only. -/
theorem claim_C4_assignNUMANodes (s : Int → Int) (dist : Int → Int → Int)
    (xs ds : List Int) (hds : ds ≠ []) (hxs : xs.Nodup)
    (hdisj : ∀ x ∈ xs, x ∉ ds) :
    ∃ a, assignNUMANodes s dist xs ds = some a ∧
      ∀ k, (hk : k < xs.length) →
        IsMinSet dist (xs.get ⟨k, hk⟩) ds (closestDram dist ds (xs.get ⟨k, hk⟩)) ∧
        List.Sorted (· ≤ ·) (closestDram dist ds (xs.get ⟨k, hk⟩)) ∧
        ∃ d₀ ∈ closestDram dist ds (xs.get ⟨k, hk⟩),
          chooseTaker s (xmemState s dist ds (xs.take k))
              (closestDram dist ds (xs.get ⟨k, hk⟩)) = some (s d₀, d₀) ∧
          (∀ d ∈ closestDram dist ds (xs.get ⟨k, hk⟩),
            ((xmemState s dist ds (xs.take k)) (s d₀)).length ≤
              ((xmemState s dist ds (xs.take k)) (s d)).length) ∧
          (∀ d ∈ closestDram dist ds (xs.get ⟨k, hk⟩),
            ((xmemState s dist ds (xs.take k)) (s d)).length =
              ((xmemState s dist ds (xs.take k)) (s d₀)).length → d₀ ≤ d) ∧
          (∀ n, (a n).count (xs.get ⟨k, hk⟩) = if n = s d₀ then 1 else 0) := by
  obtain ⟨af, haf⟩ := assignXmem_some s dist ds hds xs (fun _ => [])
  refine ⟨assignDramNodes s ds af, ?_, ?_⟩
  · rw [assignNUMANodes, haf]
  · intro k hk
    set x := xs.get ⟨k, hk⟩ with hx
    obtain ⟨hminset, hne⟩ := closestDram_isMinSet dist ds x hds
    refine ⟨hminset, closestDram_sorted dist ds x, ?_⟩
    set pre := xmemState s dist ds (xs.take k) with hpre
    obtain ⟨d₀, hct, hfm⟩ := chooseTaker_spec s pre (closestDram dist ds x) hne
    -- decompose the iteration order around position k
    have hsplit : xs = xs.take k ++ x :: xs.drop (k + 1) := by
      conv_lhs => rw [← List.take_append_drop k xs]
      rw [List.drop_eq_getElem_cons hk]
      simp [hx]
    have hnd := hsplit ▸ hxs
    have hnodup := List.nodup_append.mp hnd
    have hxtake : x ∉ xs.take k := fun hmem => hnodup.2.2 hmem (by simp)
    have hxdrop : x ∉ xs.drop (k + 1) := (List.nodup_cons.mp hnodup.2.1).1
    -- run the loop up to position k
    have hstate := xmemState_eq s dist ds hds (xs.take k)
    have happ := assignXmem_append s dist ds (xs.take k) (x :: xs.drop (k + 1)) (fun _ => [])
    rw [← hsplit, haf, hstate] at happ
    simp only [Option.some_bind] at happ
    rw [assignXmemNodes, hct] at happ
    -- x is in no list before its step
    have hprezero : ∀ n, (pre n).count x = 0 := by
      intro n
      rw [List.count_eq_zero]
      intro hmem
      rcases assignXmem_mem s dist ds (xs.take k) _ _ hstate n x hmem with h0 | h0
      · simp at h0
      · exact hxtake h0
    refine ⟨d₀, firstMin_mem hfm, hct, firstMin_minimal hfm,
      firstMin_tie_smallest (closestDram_sorted dist ds x) hfm, ?_⟩
    intro n
    have hxds : x ∉ ds := hdisj x (by rw [hx]; exact xs.get_mem _ _)
    rw [assignDram_count_preserve s x ds _ hxds n]
    have hcount := assignXmem_count_preserve s dist ds x (xs.drop (k + 1))
      _ af happ.symm hxdrop n
    rw [hcount]
    by_cases hn : n = s d₀
    · rw [if_pos hn, hn]
      simp only [if_pos rfl]
      rw [List.count_append]
      rw [hprezero (s d₀)]
      simp
    · rw [if_neg hn]
      simp only [if_neg hn]
      exact hprezero n

/-- Surrogate map of the C4 witness (identity). -/
def c4wS : Int → Int := fun n => n

/-- Distance matrix of the C4 witness (constant). -/
def c4wDist : Int → Int → Int := fun _ _ => 10

/-- XMEM iteration order of the C4 witness. -/
def c4wXs : List Int := [5]

/-- DRAM iteration order of the C4 witness. -/
def c4wDs : List Int := [1]

/-- Witness for C4 at a concrete one-PMEM one-DRAM snapshot. -/
theorem claim_C4_witness :
    c4wDs ≠ [] ∧ c4wXs.Nodup ∧ (∀ x ∈ c4wXs, x ∉ c4wDs) ∧
    (∃ a, assignNUMANodes c4wS c4wDist c4wXs c4wDs = some a ∧
      ∀ k, (hk : k < c4wXs.length) →
        IsMinSet c4wDist (c4wXs.get ⟨k, hk⟩) c4wDs
            (closestDram c4wDist c4wDs (c4wXs.get ⟨k, hk⟩)) ∧
        List.Sorted (· ≤ ·) (closestDram c4wDist c4wDs (c4wXs.get ⟨k, hk⟩)) ∧
        ∃ d₀ ∈ closestDram c4wDist c4wDs (c4wXs.get ⟨k, hk⟩),
          chooseTaker c4wS (xmemState c4wS c4wDist c4wDs (c4wXs.take k))
              (closestDram c4wDist c4wDs (c4wXs.get ⟨k, hk⟩)) = some (c4wS d₀, d₀) ∧
          (∀ d ∈ closestDram c4wDist c4wDs (c4wXs.get ⟨k, hk⟩),
            ((xmemState c4wS c4wDist c4wDs (c4wXs.take k)) (c4wS d₀)).length ≤
              ((xmemState c4wS c4wDist c4wDs (c4wXs.take k)) (c4wS d)).length) ∧
          (∀ d ∈ closestDram c4wDist c4wDs (c4wXs.get ⟨k, hk⟩),
            ((xmemState c4wS c4wDist c4wDs (c4wXs.take k)) (c4wS d)).length =
              ((xmemState c4wS c4wDist c4wDs (c4wXs.take k)) (c4wS d₀)).length → d₀ ≤ d) ∧
          (∀ n, (a n).count (c4wXs.get ⟨k, hk⟩) = if n = c4wS d₀ then 1 else 0)) :=
  ⟨by decide, by decide, by decide,
    claim_C4_assignNUMANodes c4wS c4wDist c4wXs c4wDs (by decide) (by decide) (by decide)⟩

/-! ### Claim C5 -/

theorem assignDram_dramFirst (s : Int → Int) (bigD bigX : List Int) :
    ∀ (ds2 : List Int) (a : Assignment),
      (∀ n, dramFirst bigD bigX (a n)) → (∀ d ∈ ds2, d ∈ bigD) →
      ∀ n, dramFirst bigD bigX ((assignDramNodes s ds2 a) n) := by
  intro ds2
  induction ds2 with
  | nil => intro a ha _ n; exact ha n
  | cons d ds2 ih =>
      intro a ha hsub n
      rw [assignDramNodes]
      refine ih _ ?_ (fun e he => hsub e (List.mem_cons_of_mem d he)) n
      intro m
      by_cases hm : m = s d
      · rw [if_pos hm]
        obtain ⟨dp, xp, heq, hdp, hxp⟩ := ha (s d)
        exact ⟨d :: dp, xp, by rw [hm, heq]; rfl, by
          intro e he
          rcases List.mem_cons.mp he with he | he
          · rw [he]; exact hsub d (by simp)
          · exact hdp e he, hxp⟩
      · rw [if_neg hm]
        exact ha m

theorem assignNUMANodes_dramFirst (s : Int → Int) (dist : Int → Int → Int)
    (xs ds : List Int) (a : Assignment)
    (h : assignNUMANodes s dist xs ds = some a) :
    ∀ n, dramFirst ds xs (a n) := by
  rw [assignNUMANodes] at h
  cases haf : assignXmemNodes s dist ds xs (fun _ => []) with
  | none => rw [haf] at h; cases h
  | some af =>
      rw [haf] at h
      have hstep : a = assignDramNodes s ds af := by
        cases h; rfl
      rw [hstep]
      refine assignDram_dramFirst s ds xs ds af ?_ (fun d hd => hd)
      intro n
      refine ⟨[], af n, rfl, by simp, ?_⟩
      intro y hy
      rcases assignXmem_mem s dist ds xs _ af haf n y hy with h0 | h0
      · simp at h0
      · exact h0

theorem mergeAssigned_notMem (hbms : Assignment) :
    ∀ (keys : List Int) (a : Assignment) (n : Int), n ∉ keys →
      (mergeAssigned hbms keys a) n = a n := by
  intro keys
  induction keys with
  | nil => intro a n _; rfl
  | cons k ks ih =>
      intro a n hn
      rw [mergeAssigned]
      rw [ih _ n (fun hm => hn (List.mem_cons_of_mem k hm))]
      rw [if_neg (fun he => hn (by rw [he]; simp))]

theorem mergeAssigned_sorted (hbms : Assignment) :
    ∀ (keys : List Int) (a : Assignment) (n : Int), n ∈ keys →
      List.Sorted (· ≤ ·) ((mergeAssigned hbms keys a) n) := by
  intro keys
  induction keys with
  | nil => intro a n hn; cases hn
  | cons k ks ih =>
      intro a n hn
      rw [mergeAssigned]
      by_cases hks : n ∈ ks
      · exact ih _ n hks
      · have hk : n = k := by
          rcases List.mem_cons.mp hn with h | h
          · exact h
          · exact absurd h hks
        rw [mergeAssigned_notMem hbms ks _ n hks, hk]
        simp only [if_pos rfl]
        exact List.sorted_insertionSort _ _

/-- C5 (amended): in the assignment produced by `buildPoolsByTopology`'s
PMEM pass, HBM pass and set-union merge, every pool that is NOT a key of
the HBM map keeps all DRAM ids before all PMEM ids; every pool that IS a
key of the HBM map instead ends with its merged list sorted in ascending
NUMA-id order (the sorted members of the union), which in general puts
an HBM id with a small NUMA id before a DRAM id with a larger one.  The
unamended "DRAM first everywhere" is refuted by
`claim_C5_counterexample`. -/
theorem claim_C5_mergedAssignment (s : Int → Int) (dist : Int → Int → Int)
    (pmems hbms ds hbmKeys : List Int) (hds : ds ≠ []) :
    ∃ a, buildPoolAssignment s dist pmems hbms ds hbmKeys = some a ∧
      (∀ n, n ∉ hbmKeys → dramFirst ds pmems (a n)) ∧
      (∀ n ∈ hbmKeys, List.Sorted (· ≤ ·) (a n)) := by
  obtain ⟨pf, hpf⟩ := assignXmem_some s dist ds hds pmems (fun _ => [])
  obtain ⟨hf, hhf⟩ := assignXmem_some s dist ds hds hbms (fun _ => [])
  have hpm : assignNUMANodes s dist pmems ds = some (assignDramNodes s ds pf) := by
    rw [assignNUMANodes, hpf]
  have hhm : assignNUMANodes s dist hbms ds = some (assignDramNodes s ds hf) := by
    rw [assignNUMANodes, hhf]
  refine ⟨mergeAssigned (assignDramNodes s ds hf) hbmKeys (assignDramNodes s ds pf),
    ?_, ?_, ?_⟩
  · rw [buildPoolAssignment, hpm, hhm]
  · intro n hn
    rw [mergeAssigned_notMem _ hbmKeys _ n hn]
    exact assignNUMANodes_dramFirst s dist pmems ds _ hpm n
  · intro n hn
    exact mergeAssigned_sorted _ hbmKeys _ n hn

/-- C5 counterexample: with DRAM node 1 and HBM node 0 (constant
distances), the pool of DRAM 1 ends with the merged list `[0, 1]` — the
HBM id 0 comes before the DRAM id 1, so the final list does not have
all DRAM ids first. -/
theorem claim_C5_counterexample :
    (buildPoolAssignment (fun n => n) (fun _ _ => 10) [] [0] [1] [1]).map
        (fun a => a 1) = some [0, 1] ∧
      ¬ dramFirst [1] [0] [0, 1] := by
  refine ⟨by rfl, ?_⟩
  rintro ⟨dp, xp, heq, hdp, hxp⟩
  cases dp with
  | nil =>
      simp at heq
      have h1 : (1 : Int) ∈ xp := by rw [← heq]; simp
      have := hxp 1 h1
      simp at this
  | cons a dp' =>
      have ha : a = 0 := by
        have := congrArg (fun l => l.headD 7) heq
        simpa using this.symm
      have := hdp a (by simp)
      rw [ha] at this
      simp at this

/-- Witness for C5 at a concrete snapshot: DRAM 0, PMEM 2, HBM 3,
HBM-map key 0. -/
theorem claim_C5_witness :
    ([0] : List Int) ≠ [] ∧
    (∃ a, buildPoolAssignment (fun n => n) (fun _ _ => 10) [2] [3] [0] [0] = some a ∧
      (∀ n, n ∉ ([0] : List Int) → dramFirst [0] [2] (a n)) ∧
      (∀ n ∈ ([0] : List Int), List.Sorted (· ≤ ·) (a n))) :=
  ⟨by decide,
    claim_C5_mergedAssignment (fun n => n) (fun _ _ => 10) [2] [3] [0] [0] (by decide)⟩

/-! ### Grants, `updateSharedAllocations`, `applyGrant`, `releasePool` -/

/-- A CPU set (`cpuset.CPUSet`). -/
abbrev CPUSet := Finset Int

/-- A grant, with the fields the embedded operations consult:
container id, CPU kind, exclusive/reserved/shared CPU sets,
shared/reserved millicpu portions, the pool node the CPUs come from,
the memory type and the committed memory zone mask. -/
structure Grant where
  containerID : String
  cpuType : CPUType
  exclusiveCPUs : CPUSet
  reservedCPUs : CPUSet
  sharedCPUs : CPUSet
  sharedPortion : Int
  reservedPortion : Int
  cpuNodeID : Int
  memoryType : Nat
  memoryZone : Nat
deriving DecidableEq

/-- Environment of `updateSharedAllocations`: the current sharable CPU
set of each pool node (`GetCPUNode().FreeSupply().SharableCPUs()`) and
the `opt.PinCPU` configuration flag. -/
structure USAEnv where
  poolSharable : Int → CPUSet
  pinCPU : Bool

/-- The loop body of `updateSharedAllocations` over the allocations
table (in map-iteration order): each emitted pair is one
`setPreferredCpusetCpus(container, cpus)` call, identifying the
container and the allocated CPU set handed to the pinning primitive.
`usaIsTrigger` is the trigger-skip test: `other` is the trigger's own
container. -/
def usaIsTrigger (trigger : Option Grant) (other : Grant) : Bool :=
  match trigger with
  | some g => other.containerID == g.containerID
  | none => false

def usaLoop (env : USAEnv) (trigger : Option Grant) : List Grant → List (String × CPUSet)
  | [] => []
  | other :: rest =>
      if usaIsTrigger trigger other then usaLoop env trigger rest
      else if other.cpuType = cpuReserved then usaLoop env trigger rest
      else if other.cpuType = cpuPreserve then usaLoop env trigger rest
      else if other.sharedPortion = 0 ∧ ¬ other.exclusiveCPUs = ∅ then usaLoop env trigger rest
      else if env.pinCPU then
        (if other.exclusiveCPUs = ∅ then
          (other.containerID, env.poolSharable other.cpuNodeID) :: usaLoop env trigger rest
        else
          (other.containerID, other.exclusiveCPUs ∪ env.poolSharable other.cpuNodeID) ::
            usaLoop env trigger rest)
      else usaLoop env trigger rest

/-- `updateSharedAllocations(grant)`: a non-nil reserved-kind trigger
returns immediately; otherwise every other grant is visited. -/
def updateSharedAllocations (env : USAEnv) (trigger : Option Grant)
    (grants : List Grant) : List (String × CPUSet) :=
  match trigger with
  | some g =>
      if g.cpuType = cpuReserved then []
      else usaLoop env trigger grants
  | none => usaLoop env trigger grants

/-- The skip conditions of `updateSharedAllocations` as a predicate: a
grant qualifies for re-pinning when it is not the trigger, its kind is
neither reserved nor preserve, and it is not exclusive-only. -/
def usaQualifies (trigger : Option Grant) (other : Grant) : Bool :=
  !(usaIsTrigger trigger other) &&
  !(other.cpuType == cpuReserved) && !(other.cpuType == cpuPreserve) &&
  !(other.sharedPortion == 0 && !(other.exclusiveCPUs == ∅))

/-- The re-pin target of a qualifying grant: the pool's current sharable
set, united with the grant's exclusive set when non-empty. -/
def usaTarget (env : USAEnv) (other : Grant) : String × CPUSet :=
  (other.containerID,
    if other.exclusiveCPUs = ∅ then env.poolSharable other.cpuNodeID
    else other.exclusiveCPUs ∪ env.poolSharable other.cpuNodeID)

/-! ### Claims C6 and C10 -/

theorem usaLoop_eq_filterMap (env : USAEnv) (trigger : Option Grant)
    (hpin : env.pinCPU = true) :
    ∀ grants : List Grant,
      usaLoop env trigger grants =
        (grants.filter (usaQualifies trigger)).map (usaTarget env) := by
  intro grants
  induction grants with
  | nil => rfl
  | cons other rest ih =>
      rw [usaLoop]
      by_cases h1 : usaIsTrigger trigger other = true
      · rw [if_pos h1, ih]
        have hq : usaQualifies trigger other = false := by
          unfold usaQualifies
          simp [h1]
        rw [List.filter_cons, hq]
        simp
      · rw [if_neg h1]
        by_cases h2 : other.cpuType = cpuReserved
        · rw [if_pos h2, ih]
          have hq : usaQualifies trigger other = false := by
            unfold usaQualifies
            simp [h2]
          rw [List.filter_cons, hq]
          simp
        · rw [if_neg h2]
          by_cases h3 : other.cpuType = cpuPreserve
          · rw [if_pos h3, ih]
            have hq : usaQualifies trigger other = false := by
              unfold usaQualifies
              simp [h3]
            rw [List.filter_cons, hq]
            simp
          · rw [if_neg h3]
            by_cases h4 : other.sharedPortion = 0 ∧ ¬ other.exclusiveCPUs = ∅
            · rw [if_pos h4, ih]
              have hq : usaQualifies trigger other = false := by
                unfold usaQualifies
                simp [h4.1, h4.2]
              rw [List.filter_cons, hq]
              simp
            · rw [if_neg h4, if_pos hpin]
              have hq : usaQualifies trigger other = true := by
                unfold usaQualifies
                simp_all [not_and_or]
                tauto
              rw [List.filter_cons, hq]
              by_cases h5 : other.exclusiveCPUs = ∅
              · rw [if_pos h5, ih]
                simp [usaTarget, h5]
              · rw [if_neg h5, ih]
                simp [usaTarget, h5]

/-- C6 (amended): when `PinCPU` is enabled and the trigger is nil or not
reserved-kind, `updateSharedAllocations` visits every grant, skips
exactly the trigger itself, reserved/preserve kinds and exclusive-only
grants, and re-pins each remaining grant to its pool's current sharable
set (united with its exclusive set when non-empty).  With `PinCPU`
disabled no grant is re-pinned (`claim_C6_counterexample`). -/
theorem claim_C6_updateSharedAllocations (env : USAEnv) (trigger : Option Grant)
    (grants : List Grant) (hpin : env.pinCPU = true)
    (htrig : ∀ g, trigger = some g → g.cpuType ≠ cpuReserved) :
    updateSharedAllocations env trigger grants =
      (grants.filter (usaQualifies trigger)).map (usaTarget env) := by
  cases trigger with
  | none => exact usaLoop_eq_filterMap env none hpin grants
  | some g =>
      show (if g.cpuType = cpuReserved then [] else usaLoop env (some g) grants) = _
      rw [if_neg (htrig g rfl)]
      exact usaLoop_eq_filterMap env (some g) hpin grants

/-- Environment of the C6 counterexample: `PinCPU` disabled. -/
def c6Env : USAEnv := ⟨fun _ => {2, 3}, false⟩

/-- A shared-only normal grant that qualifies for re-pinning. -/
def c6Grant : Grant := ⟨"c1", cpuNormal, ∅, ∅, {0, 1}, 500, 0, 7, 0, 0⟩

/-- C6 counterexample: with `opt.PinCPU` disabled, a qualifying
shared-only grant is not re-pinned at all — `updateSharedAllocations`
writes nothing although the claim requires the grant to be re-pinned to
its pool's sharable set. -/
theorem claim_C6_counterexample :
    updateSharedAllocations c6Env none [c6Grant] = [] ∧
    usaQualifies none c6Grant = true ∧
    ([c6Grant].filter (usaQualifies none)).map (usaTarget c6Env) ≠ [] := by
  refine ⟨by rfl, by decide, by decide⟩

/-- Environment of the C6 witness: `PinCPU` enabled. -/
def c6wEnv : USAEnv := ⟨fun _ => {2, 3}, true⟩

/-- Witness for C6 at a concrete allocations table. -/
theorem claim_C6_witness :
    c6wEnv.pinCPU = true ∧
    updateSharedAllocations c6wEnv none [c6Grant] =
      ([c6Grant].filter (usaQualifies none)).map (usaTarget c6wEnv) :=
  ⟨rfl, claim_C6_updateSharedAllocations c6wEnv none [c6Grant] rfl
    (fun g h => by cases h)⟩

/-- C10: a non-nil trigger grant of reserved CPU kind makes
`updateSharedAllocations` return immediately: no grant is re-pinned, for
any configuration and any allocations table. -/
theorem claim_C10_reserved_trigger (env : USAEnv) (g : Grant) (grants : List Grant)
    (hres : g.cpuType = cpuReserved) :
    updateSharedAllocations env (some g) grants = [] := by
  show (if g.cpuType = cpuReserved then [] else usaLoop env (some g) grants) = []
  rw [if_pos hres]

/-- A reserved-kind trigger grant. -/
def c10Grant : Grant := ⟨"c0", cpuReserved, ∅, {0}, ∅, 0, 500, 3, 0, 0⟩

/-- Witness for C10: even with a qualifying grant in the table and
pinning enabled, a reserved trigger suppresses every re-pin. -/
theorem claim_C10_witness :
    c10Grant.cpuType = cpuReserved ∧
    updateSharedAllocations c6wEnv (some c10Grant) [c6Grant] = [] :=
  ⟨rfl, claim_C10_reserved_trigger c6wEnv c10Grant [c6Grant] rfl⟩

/-! ### `applyGrant` (claim C7) -/

/-- The observable container effects of `applyGrant`, in emission order:
`pinCpus` is one `setPreferredCpusetCpus(container, cpus)` call,
`clearCpus` is `SetCpusetCpus("")`, `setShares` is `SetCPUShares`, and
`setMems` is `SetCpusetMems`. -/
inductive Effect where
  | pinCpus (cid : String) (allocated : CPUSet)
  | clearCpus (cid : String)
  | setShares (cid : String) (shares : Int)
  | setMems (cid : String) (mems : Nat)
deriving DecidableEq

/-- Environment of `applyGrant`: the `opt.PinCPU` / `opt.PinMemory`
configuration and the external `cache.MilliCPUToShares` conversion. -/
structure ApplyEnv where
  pinCPU : Bool
  pinMemory : Bool
  milliCPUToShares : Int → Int

/-- `applyGrant`: per CPU kind compute the cpuset and the effective
portion (reserved kind replaces the shared portion by the reserved one;
preserve pins nothing), then — under `opt.PinCPU` — pin or clear the
cpuset, and set the CPU shares from the portion, falling back to
1000 × |exclusive| when the portion is 0; finally pin memory unless the
grant's memory type is preserve. -/
def applyGrant (env : ApplyEnv) (g : Grant) : List Effect :=
  let cid := g.containerID
  let cp : CPUSet × Int :=
    match g.cpuType with
    | cpuNormal =>
        if g.exclusiveCPUs = ∅ then (g.sharedCPUs, g.sharedPortion)
        else if g.sharedPortion > 0 then (g.exclusiveCPUs ∪ g.sharedCPUs, g.sharedPortion)
        else (g.exclusiveCPUs, g.sharedPortion)
    | cpuReserved => (g.reservedCPUs, g.reservedPortion)
    | cpuPreserve => (∅, g.sharedPortion)
  let mems : Nat := if env.pinMemory then g.memoryZone else 0
  let pinPart : List Effect :=
    if env.pinCPU then
      (if g.cpuType = cpuPreserve then []
       else if cp.1.card > 0 then [.pinCpus cid cp.1] else [.clearCpus cid]) ++
      [.setShares cid (env.milliCPUToShares
        (if cp.2 = 0 then 1000 * (g.exclusiveCPUs.card : Int) else cp.2))]
    else []
  let memPart : List Effect :=
    if g.memoryType = memoryPreserve then [] else [.setMems cid mems]
  pinPart ++ memPart

/-- The first CPU-shares value written by a list of effects. -/
def sharesEffect : List Effect → Option Int
  | [] => none
  | .setShares _ v :: _ => some v
  | _ :: rest => sharesEffect rest

/-- C7 (amended): for every grant whose kind is not preserve — when
`opt.PinCPU` is enabled and the relevant portion is non-negative (as
millicpu amounts always are) — `applyGrant` sets the container's CPU
shares to `MilliCPUToShares(effective)`, where `effective` is the
shared portion (the reserved portion for reserved kind) when positive,
else 1000 × |exclusive CPUs|.  With `opt.PinCPU` disabled no shares
are written (`claim_C7_counterexample`). -/
theorem claim_C7_applyGrant_shares (env : ApplyEnv) (g : Grant)
    (hpin : env.pinCPU = true) (hkind : g.cpuType ≠ cpuPreserve)
    (hport : 0 ≤ (if g.cpuType = cpuReserved then g.reservedPortion else g.sharedPortion)) :
    sharesEffect (applyGrant env g) =
      some (env.milliCPUToShares
        (if 0 < (if g.cpuType = cpuReserved then g.reservedPortion else g.sharedPortion)
         then (if g.cpuType = cpuReserved then g.reservedPortion else g.sharedPortion)
         else 1000 * (g.exclusiveCPUs.card : Int))) := by
  obtain ⟨cid, ct, excl, resv, shr, sp, rp, node, mt, mz⟩ := g
  cases ct with
  | cpuPreserve => exact absurd rfl hkind
  | cpuReserved =>
      simp only [applyGrant, hpin] at *
      simp only [if_true, if_pos rfl] at hport ⊢
      split_ifs at hport ⊢ <;> simp_all [sharesEffect] <;> omega
  | cpuNormal =>
      simp only [applyGrant, hpin] at *
      have hnr : (cpuNormal = cpuReserved) = False := by simp
      have hnp : (cpuNormal = cpuPreserve) = False := by simp
      simp only [hnr, hnp, if_false] at hport ⊢
      split_ifs at hport ⊢ <;> simp_all [sharesEffect] <;> omega

/-- Environment of the C7 counterexample: `PinCPU` disabled. -/
def c7Env : ApplyEnv := ⟨false, true, fun m => m⟩

/-- A normal-kind shared-only grant. -/
def c7Grant : Grant := ⟨"c2", cpuNormal, ∅, ∅, {0, 1}, 500, 0, 7, 0, 3⟩

/-- C7 counterexample: with `opt.PinCPU` disabled, `applyGrant` writes
no CPU shares at all for a normal-kind grant, although the claim
requires shares `MilliCPUToShares(500)`. -/
theorem claim_C7_counterexample :
    c7Grant.cpuType ≠ cpuPreserve ∧
    sharesEffect (applyGrant c7Env c7Grant) = none := by
  refine ⟨by decide, by rfl⟩

/-- Environment of the C7 witness: `PinCPU` enabled, an arbitrary
concrete shares conversion. -/
def c7wEnv : ApplyEnv := ⟨true, true, fun m => m⟩

/-- Witness for C7 at a concrete grant. -/
theorem claim_C7_witness :
    c7wEnv.pinCPU = true ∧ c7Grant.cpuType ≠ cpuPreserve ∧
    sharesEffect (applyGrant c7wEnv c7Grant) =
      some (c7wEnv.milliCPUToShares
        (if 0 < (if c7Grant.cpuType = cpuReserved then c7Grant.reservedPortion
                 else c7Grant.sharedPortion)
         then (if c7Grant.cpuType = cpuReserved then c7Grant.reservedPortion
               else c7Grant.sharedPortion)
         else 1000 * (c7Grant.exclusiveCPUs.card : Int))) :=
  ⟨rfl, by decide,
    claim_C7_applyGrant_shares c7wEnv c7Grant rfl (by decide) (by decide)⟩

/-! ### `releasePool` (claim C9) -/

/-- Events recorded by `releasePool`: the grant's `Release()` call and
the `saveAllocations()` persistence write. -/
inductive ReleaseEvent where
  | released (g : Grant)
  | saved
deriving DecidableEq

/-- `releasePool(container)`: look the container up in the allocations
table; when absent return `(nil, false)` leaving the table untouched and
performing no release and no save; when present release the grant,
delete it and save. -/
def releasePool (grants : List (String × Grant)) (cid : String) :
    (Option Grant × Bool) × List (String × Grant) × List ReleaseEvent :=
  match grants.lookup cid with
  | none => ((none, false), grants, [])
  | some g =>
      ((some g, true), grants.filter (fun p => !(p.1 == cid)),
        [.released g, .saved])

/-- C9: for a container with no grant in the allocations table,
`releasePool` returns `(nil, false)`, leaves the table unchanged, emits
no release and performs no persistence write. -/
theorem claim_C9_releasePool_absent (grants : List (String × Grant)) (cid : String)
    (h : grants.lookup cid = none) :
    releasePool grants cid = ((none, false), grants, []) := by
  unfold releasePool
  rw [h]

/-- Witness for C9: an empty table and a fresh container id. -/
theorem claim_C9_witness :
    ([] : List (String × Grant)).lookup "c9" = none ∧
    releasePool [] "c9" = ((none, false), [], []) :=
  ⟨rfl, claim_C9_releasePool_absent [] "c9" rfl⟩

/-! ### `allocatePool` (claim C3) -/

/-- A container as consulted by the allocator: identity and the request
metadata `newRequest` reads from it. -/
structure Container where
  id : String
  prettyName : String
  cpuKind : CPUType
  cpuPrio : CPUPrio
  memType : Nat
  isolate : Bool
  fullCPUs : Int

/-- Modelled from the spec: `newRequest(container, availableTypes)`
(outside `src/`) builds the request from container metadata — in
particular the request's CPU kind comes from the container. -/
def newRequest (c : Container) (availableTypes : Nat) : Request :=
  { cpuType := c.cpuKind, cpuPrio := c.cpuPrio, memoryType := c.memType,
    isolate := c.isolate, fullCPUs := c.fullCPUs }

/-- Modelled from the spec: a pool's free supply, as the oracle
`Allocate` needs (§4.2): whether the supply can satisfy a request, the
CPU sets and portions the grant would commit, and the foreign zone
updates returned by the offer commit. -/
structure Supply where
  canAllocate : Request → Bool
  grantExclusive : CPUSet
  grantReserved : CPUSet
  grantShared : CPUSet
  grantSharedPortion : Int
  grantReservedPortion : Int
  zoneUpdates : List (String × Nat)

/-- Modelled from the spec: `Supply.Allocate(request, offer)` fails with
`Insufficient` when the supply cannot satisfy the request; on success
the grant records the request (its CPU kind in particular, §3: a grant
is "request + selected pool + committed sets"), and the offer commit's
zone updates are returned. -/
def Supply.Allocate (s : Supply) (poolID : Int) (cid : String) (req : Request)
    (offer : MemOffer) : Except Unit (Grant × List (String × Nat)) :=
  if s.canAllocate req then
    .ok ({ containerID := cid, cpuType := req.cpuType,
           exclusiveCPUs := s.grantExclusive, reservedCPUs := s.grantReserved,
           sharedCPUs := s.grantShared, sharedPortion := s.grantSharedPortion,
           reservedPortion := s.grantReservedPortion, cpuNodeID := poolID,
           memoryType := req.memoryType, memoryZone := offer.nodeMask },
         s.zoneUpdates)
  else .error ()

/-- Environment of `allocatePool`: the policy state and the external
collaborators it consults. -/
structure AllocEnv where
  availableTypes : Nat
  rootReservedEmpty : Bool
  rootID : Int
  pools : List PoolNode
  cmpCtx : CmpCtx
  getScore : Request → Int → Score
  calcAffinity : Container → Option (Int → Int)
  getMemOffer : Int → Request → Option MemOffer
  freeSupply : Int → Supply

/-- `sortPoolsByScore`: score every pool and sort the candidate slice by
the comparator. -/
def sortPoolsByScore (env : AllocEnv) (req : Request) (aff : Int → Int) :
    (Int → Score) × List PoolNode :=
  (fun id => env.getScore req id,
   List.insertionSort
     (fun a b => compareNodes env.cmpCtx req a b (fun id => env.getScore req id) aff = true)
     env.pools)

/-- The zone-update loop after the offer commit: update the memory zone
of every listed container that has a grant. -/
def applyZoneUpdates (grants : List (String × Grant)) :
    List (String × Nat) → List (String × Grant)
  | [] => grants
  | (cid, z) :: rest =>
      applyZoneUpdates
        (grants.map (fun p => if p.1 == cid then (p.1, { p.2 with memoryZone := z }) else p))
        rest

/-- Map insert for the allocations table. -/
def insertGrant (grants : List (String × Grant)) (cid : String) (g : Grant) :
    List (String × Grant) :=
  (cid, g) :: grants.filter (fun p => !(p.1 == cid))

/-- Tail of `allocatePool` after a pool and an offer were found: commit
the allocation, apply zone updates, record and persist the grant. -/
def allocCommit (env : AllocEnv) (grants : List (String × Grant)) (c : Container)
    (req : Request) (poolID : Int) (offer : MemOffer) :
    Except Unit (Grant × List (String × Grant)) :=
  match (env.freeSupply poolID).Allocate poolID c.id req offer with
  | .error e => .error e
  | .ok (grant, updates) =>
      .ok (grant, insertGrant (applyZoneUpdates grants updates) c.id grant)

/-- `allocatePool(container, poolHint)`: build the request, downgrade a
reserved request to normal when the root has no reserved CPUs, pick the
pool (root for reserved/preserve; best-scored or hinted otherwise), get
the offer, and commit. -/
def allocatePool (env : AllocEnv) (grants : List (String × Grant))
    (c : Container) (poolHint : String) :
    Except Unit (Grant × List (String × Grant)) :=
  let request := newRequest c env.availableTypes
  let request :=
    if env.rootReservedEmpty = true ∧ request.cpuType = cpuReserved then
      { request with cpuType := cpuNormal }
    else request
  if request.cpuType = cpuReserved ∨ request.cpuType = cpuPreserve then
    match env.getMemOffer env.rootID request with
    | none => .error ()
    | some offer => allocCommit env grants c request env.rootID offer
  else
    match env.calcAffinity c with
    | none => .error ()
    | some aff =>
        let sp := sortPoolsByScore env request aff
        if sp.2.isEmpty then .error ()
        else
          let pool :=
            if poolHint ≠ "" then
              match sp.2.find? (fun q => q.name == poolHint) with
              | some q => q
              | none => sp.2.headD default
            else sp.2.headD default
          match (sp.1 pool.nodeID).offer with
          | none => .error ()
          | some offer => allocCommit env grants c request pool.nodeID offer

theorem allocCommit_kind (env : AllocEnv) (grants : List (String × Grant))
    (c : Container) (req : Request) (poolID : Int) (offer : MemOffer)
    (g : Grant) (st : List (String × Grant))
    (h : allocCommit env grants c req poolID offer = .ok (g, st)) :
    g.cpuType = req.cpuType := by
  unfold allocCommit Supply.Allocate at h
  by_cases hc : (env.freeSupply poolID).canAllocate req = true
  · rw [if_pos hc] at h
    cases h
    rfl
  · rw [if_neg hc] at h
    cases h

/-- C3: when the root pool's free reserved CPU set is empty and the
container's request has reserved CPU kind, `allocatePool` downgrades the
request to normal kind before pool selection, and any grant it returns
has normal CPU kind. -/
theorem claim_C3_reserved_fallback (env : AllocEnv) (grants : List (String × Grant))
    (c : Container) (poolHint : String)
    (hres : env.rootReservedEmpty = true)
    (hkind : (newRequest c env.availableTypes).cpuType = cpuReserved) :
    ∀ g st, allocatePool env grants c poolHint = .ok (g, st) → g.cpuType = cpuNormal := by
  intro g st h
  simp only [allocatePool] at h
  have hreq : (if env.rootReservedEmpty = true ∧
        (newRequest c env.availableTypes).cpuType = cpuReserved then
      { newRequest c env.availableTypes with cpuType := cpuNormal }
    else newRequest c env.availableTypes) =
      { newRequest c env.availableTypes with cpuType := cpuNormal } :=
    if_pos ⟨hres, hkind⟩
  rw [hreq] at h
  rw [if_neg (by intro hor; rcases hor with h1 | h1 <;> cases h1)] at h
  cases hca : env.calcAffinity c with
  | none => rw [hca] at h; cases h
  | some aff =>
      rw [hca] at h
      dsimp only at h
      by_cases hemp : (sortPoolsByScore env
          { newRequest c env.availableTypes with cpuType := cpuNormal } aff).2.isEmpty = true
      · rw [if_pos hemp] at h; cases h
      · rw [if_neg hemp] at h
        set req' : Request := { newRequest c env.availableTypes with cpuType := cpuNormal }
          with hreq'
        set pool := (if poolHint ≠ "" then
            match (sortPoolsByScore env req' aff).2.find? (fun q => q.name == poolHint) with
            | some q => q
            | none => (sortPoolsByScore env req' aff).2.headD default
          else (sortPoolsByScore env req' aff).2.headD default) with hpool
        cases hoff : ((sortPoolsByScore env req' aff).1 pool.nodeID).offer with
        | none => rw [hoff] at h; cases h
        | some offer =>
            rw [hoff] at h
            have := allocCommit_kind env grants c req' pool.nodeID offer g st h
            rw [this, hreq']

/-- Container of the C3 witness: requests reserved CPU kind. -/
def c3wC : Container := ⟨"c", "pod0:c", cpuReserved, normalPrio, 0, false, 0⟩

/-- Pool of the C3 witness. -/
def c3wNode : PoolNode := ⟨1, "numa0", 1, [], [], fun _ => false⟩

/-- Environment of the C3 witness: empty root reserved set, one pool
whose score carries an offer, and a supply that accepts the request. -/
def c3wEnv : AllocEnv :=
  { availableTypes := 0
    rootReservedEmpty := true
    rootID := 0
    pools := [c3wNode]
    cmpCtx := ⟨fun _ => 0⟩
    getScore := fun _ _ => ⟨0, 0, 1, 0, 0, 0, [], 0, some ⟨1⟩⟩
    calcAffinity := fun _ => some (fun _ => 0)
    getMemOffer := fun _ _ => some ⟨1⟩
    freeSupply := fun _ =>
      ⟨fun _ => true, ∅, ∅, ∅, 0, 0, []⟩ }

/-- The grant the C3 witness run produces. -/
def c3wGrant : Grant := ⟨"c", cpuNormal, ∅, ∅, ∅, 0, 0, 1, 0, 1⟩

/-- Witness for C3: a concrete reserved-kind admission with an empty
root reserved set succeeds and yields a normal-kind grant. -/
theorem claim_C3_witness :
    c3wEnv.rootReservedEmpty = true ∧
    (newRequest c3wC c3wEnv.availableTypes).cpuType = cpuReserved ∧
    allocatePool c3wEnv [] c3wC "" = .ok (c3wGrant, [("c", c3wGrant)]) ∧
    c3wGrant.cpuType = cpuNormal := by
  have h : allocatePool c3wEnv [] c3wC "" = .ok (c3wGrant, [("c", c3wGrant)]) := by rfl
  exact ⟨rfl, rfl, h,
    claim_C3_reserved_fallback c3wEnv [] c3wC "" rfl rfl c3wGrant [("c", c3wGrant)] h⟩

/-! ### Balloons metrics projection (claim C8) -/

/-- A balloon type definition (`bln.Def`). -/
structure BalloonDef where
  name : String
  cpuClass : String
  minCpus : Int
  maxCpus : Int
deriving DecidableEq

/-- One balloon instance, with the state `GetMetrics` reads.  The two Go
maps (`Groups`, `PodIDs`) are association lists whose order models the
unspecified map-iteration order. -/
structure Balloon where
  defn : BalloonDef
  prettyNameV : String
  groups : List (String × Int)
  cpus : CPUSet
  sharedIdleCpus : CPUSet
  mems : Nat
  podIDs : List (String × List String)

/-- External collaborators of `GetMetrics`: the CPU tree locations, the
container cache lookup (pretty name of a cached container) and the
requested-millicpu accounting. -/
structure MetricsEnv where
  cpuLocations : CPUSet → List (List String)
  lookupContainer : String → Option String
  containerRequestedMilliCpus : String → Int

/-- `sort.Strings`. -/
def sortStrings (l : List String) : List String :=
  List.insertionSort (· ≤ ·) l

/-- `strings.Join(l, ",")`. -/
def joinComma (l : List String) : String :=
  String.intercalate "," l

/-- The pretty names of the balloon's containers found in the cache, in
map-iteration order of `PodIDs`. -/
def balloonContainerNames (env : MetricsEnv) (podIDs : List (String × List String)) :
    List String :=
  podIDs.flatMap (fun p => p.2.filterMap env.lookupContainer)

/-- The total requested millicpus over the same found containers. -/
def balloonReqMilliCpus (env : MetricsEnv) (podIDs : List (String × List String)) : Int :=
  ((podIDs.flatMap (fun p => p.2.filter (fun cid => (env.lookupContainer cid).isSome))).map
    env.containerRequestedMilliCpus).sum

/-- The per-balloon metrics record built by `GetMetrics`: every field
from which `Collect` derives one label (string renderings of CPU sets,
counts and the memory mask are deterministic functions of these
fields). -/
structure BalloonMetrics where
  defName : String
  cpuClass : String
  minCpus : Int
  maxCpus : Int
  prettyNameV : String
  groupsLabel : String
  cpus : CPUSet
  cpusCount : Nat
  numas : List String
  numasCount : Nat
  dies : List String
  diesCount : Nat
  packages : List String
  packagesCount : Nat
  sharedIdleCpus : CPUSet
  sharedIdleCpusCount : Nat
  cpusAllowed : CPUSet
  cpusAllowedCount : Nat
  mems : Nat
  containerNames : String
  containerReqMilliCpus : Int
deriving DecidableEq

/-- The body of `GetMetrics` for one balloon. -/
def balloonMetrics (env : MetricsEnv) (bln : Balloon) : BalloonMetrics :=
  let cpuLoc := env.cpuLocations bln.cpus
  let groups := sortStrings ((bln.groups.filter (fun p => p.2 > 0)).map Prod.fst)
  let cNames := sortStrings (balloonContainerNames env bln.podIDs)
  { defName := bln.defn.name
    cpuClass := bln.defn.cpuClass
    minCpus := bln.defn.minCpus
    maxCpus := bln.defn.maxCpus
    prettyNameV := bln.prettyNameV
    groupsLabel := joinComma groups
    cpus := bln.cpus
    cpusCount := bln.cpus.card
    numas := if cpuLoc.length > 3 then cpuLoc.getD 3 [] else []
    numasCount := (if cpuLoc.length > 3 then cpuLoc.getD 3 [] else []).length
    dies := if cpuLoc.length > 3 then cpuLoc.getD 2 [] else []
    diesCount := (if cpuLoc.length > 3 then cpuLoc.getD 2 [] else []).length
    packages := if cpuLoc.length > 3 then cpuLoc.getD 1 [] else []
    packagesCount := (if cpuLoc.length > 3 then cpuLoc.getD 1 [] else []).length
    sharedIdleCpus := bln.sharedIdleCpus
    sharedIdleCpusCount := bln.sharedIdleCpus.card
    cpusAllowed := bln.cpus ∪ bln.sharedIdleCpus
    cpusAllowedCount := (bln.cpus ∪ bln.sharedIdleCpus).card
    mems := bln.mems
    containerNames := joinComma cNames
    containerReqMilliCpus := balloonReqMilliCpus env bln.podIDs }

/-- `GetMetrics`: one record per balloon, in slice order. -/
def getMetrics (env : MetricsEnv) (balloons : List Balloon) : List BalloonMetrics :=
  balloons.map (balloonMetrics env)

/-- `Collect`: one constant gauge sample per balloon; the gauge value is
the balloon's CPU count and the label tuple is derived from the record. -/
def collectMetrics (m : List BalloonMetrics) : List (Nat × BalloonMetrics) :=
  m.map (fun bm => (bm.cpus.card, bm))

/-- Two observations of one fixed balloon state: identical except for
the iteration order of the `Groups` and `PodIDs` maps. -/
def BalloonEquiv (b1 b2 : Balloon) : Prop :=
  b1.defn = b2.defn ∧ b1.prettyNameV = b2.prettyNameV ∧
  List.Perm b1.groups b2.groups ∧ b1.cpus = b2.cpus ∧
  b1.sharedIdleCpus = b2.sharedIdleCpus ∧ b1.mems = b2.mems ∧
  List.Perm b1.podIDs b2.podIDs

theorem flatMap_perm {α β : Type} (f : α → List β) {l1 l2 : List α}
    (h : List.Perm l1 l2) : List.Perm (l1.flatMap f) (l2.flatMap f) := by
  induction h with
  | nil => exact List.Perm.refl _
  | cons x _ ih => exact ih.append_left (f x)
  | swap x y l =>
      simp only [List.flatMap_cons]
      have h1 : f y ++ (f x ++ l.flatMap f) = (f y ++ f x) ++ l.flatMap f := by
        rw [List.append_assoc]
      have h2 : f x ++ (f y ++ l.flatMap f) = (f x ++ f y) ++ l.flatMap f := by
        rw [List.append_assoc]
      rw [h1, h2]
      exact (List.perm_append_comm).append_right _
  | trans _ _ ih1 ih2 => exact ih1.trans ih2

theorem sortStrings_eq_of_perm {l1 l2 : List String} (h : List.Perm l1 l2) :
    sortStrings l1 = sortStrings l2 :=
  List.eq_of_perm_of_sorted
    (((List.perm_insertionSort _ l1).trans h).trans (List.perm_insertionSort _ l2).symm)
    (List.sorted_insertionSort _ l1) (List.sorted_insertionSort _ l2)

theorem balloonMetrics_equiv (env : MetricsEnv) {b1 b2 : Balloon}
    (h : BalloonEquiv b1 b2) : balloonMetrics env b1 = balloonMetrics env b2 := by
  obtain ⟨hdef, hpretty, hgroups, hcpus, hshared, hmems, hpods⟩ := h
  have hglabel : sortStrings ((b1.groups.filter (fun p => p.2 > 0)).map Prod.fst) =
      sortStrings ((b2.groups.filter (fun p => p.2 > 0)).map Prod.fst) :=
    sortStrings_eq_of_perm ((hgroups.filter _).map _)
  have hnames : sortStrings (balloonContainerNames env b1.podIDs) =
      sortStrings (balloonContainerNames env b2.podIDs) :=
    sortStrings_eq_of_perm (flatMap_perm _ hpods)
  have hsum : balloonReqMilliCpus env b1.podIDs = balloonReqMilliCpus env b2.podIDs :=
    ((flatMap_perm _ hpods).map env.containerRequestedMilliCpus).sum_eq
  unfold balloonMetrics
  rw [hdef, hpretty, hcpus, hshared, hmems, hglabel, hnames, hsum]

/-- C8: the metrics projection is deterministic.  For one fixed policy
state observed twice — the two observations differ only in the Go map
iteration orders of each balloon's `Groups` and `PodIDs` maps —
`GetMetrics` followed by `Collect` emits identical samples: identical
label records and identical gauge values.  In particular the groups
label is the comma-join of the sorted group names with non-zero count,
the containers label is the comma-join of the sorted found container
pretty names, and each gauge value is the balloon's CPU count. -/
theorem claim_C8_metrics_deterministic (env : MetricsEnv) (bs1 bs2 : List Balloon)
    (h : List.Forall₂ BalloonEquiv bs1 bs2) :
    collectMetrics (getMetrics env bs1) = collectMetrics (getMetrics env bs2) ∧
    (∀ bln ∈ bs1,
      (balloonMetrics env bln).groupsLabel =
        joinComma (sortStrings ((bln.groups.filter (fun p => p.2 > 0)).map Prod.fst)) ∧
      (balloonMetrics env bln).containerNames =
        joinComma (sortStrings (balloonContainerNames env bln.podIDs))) ∧
    (∀ bm ∈ getMetrics env bs1, ∀ v, (v, bm) ∈ collectMetrics (getMetrics env bs1) →
      v = bm.cpus.card) := by
  refine ⟨?_, ?_, ?_⟩
  · have : getMetrics env bs1 = getMetrics env bs2 := by
      unfold getMetrics
      induction h with
      | nil => rfl
      | cons hb _ ih => simp only [List.map_cons, ih, balloonMetrics_equiv env hb]
    rw [this]
  · intro bln _
    exact ⟨rfl, rfl⟩
  · intro bm _ v hv
    unfold collectMetrics at hv
    obtain ⟨bm', _, heq⟩ := List.mem_map.mp hv
    have h1 : bm' = bm := congrArg Prod.snd heq
    have h2 : bm'.cpus.card = v := congrArg Prod.fst heq
    rw [← h2, h1]

/-- Metrics environment of the C8 witness. -/
def c8Env : MetricsEnv :=
  { cpuLocations := fun _ => []
    lookupContainer := fun cid => if cid == "c1" then some "pod0:c1" else none
    containerRequestedMilliCpus := fun _ => 250 }

/-- First observation of the witness balloon state. -/
def c8B1 : Balloon :=
  ⟨⟨"bt", "turbo", 1, 4⟩, "bt[0]", [("g1", 1), ("g2", 0)], {0, 1}, {2}, 5,
    [("p0", ["c1", "c2"])]⟩

/-- Second observation: the `Groups` map enumerated in the other order. -/
def c8B2 : Balloon :=
  ⟨⟨"bt", "turbo", 1, 4⟩, "bt[0]", [("g2", 0), ("g1", 1)], {0, 1}, {2}, 5,
    [("p0", ["c1", "c2"])]⟩

/-- Witness for C8: two concrete observations differing in map order
collect identically. -/
theorem claim_C8_witness :
    List.Forall₂ BalloonEquiv [c8B1] [c8B2] ∧
    collectMetrics (getMetrics c8Env [c8B1]) = collectMetrics (getMetrics c8Env [c8B2]) := by
  have hequiv : List.Forall₂ BalloonEquiv [c8B1] [c8B2] := by
    refine List.Forall₂.cons ?_ List.Forall₂.nil
    refine ⟨rfl, rfl, ?_, rfl, rfl, rfl, List.Perm.refl _⟩
    exact List.Perm.swap _ _ _
  exact ⟨hequiv, (claim_C8_metrics_deterministic c8Env [c8B1] [c8B2] hequiv).1⟩

end NriPolicy
